import Mathlib

/-
Verification development for the rlox tree-walking Lox interpreter.

Shallow embedding of the repository's core (scanner, parser, resolver,
evaluator) as executable Lean definitions, followed by theorems settling
the specification claims.

Modelling conventions:
* Rust `u64`/`usize` counters are modelled as `Nat` (no claim involves
  integer overflow).
* Lox numbers are IEEE-754 doubles in the source; they are modelled as
  exact rationals (`Rat`).  No claim under scrutiny depends on rounding,
  `NaN`, or signed zero.
* `HashMap`s are modelled as association lists with deterministic
  insert/lookup; iteration order of warnings may differ from a concrete
  `HashMap` run, which no claim depends on.
* Shared mutable `Gc<RefCell<_>>` graphs (environments, classes,
  instances) are modelled as explicit heaps (arrays indexed by `Nat`
  handles) threaded through the evaluator.
* Unbounded recursion (parser productions, resolver walk, evaluator) is
  made total with an explicit fuel parameter; fuel exhaustion is a
  distinguished outcome, and Rust `panic!`/`expect` paths are the
  distinguished outcome `bug`.
-/

namespace Rlox

/-! ### Tokens (src/scanner.rs) -/

/-- `scanner::TokenType`. -/
inductive TokenType where
  | LeftParen | RightParen | LeftBrace | RightBrace | Comma | Dot
  | Minus | Plus | Semicolon | Slash | Star
  | Bang | BangEqual | Equal | EqualEqual
  | Greater | GreaterEqual | Less | LessEqual
  | Identifier | String | Number
  | And | Class | Else | False | Fun | For | If | Nil | Or
  | Print | Return | Break | Super | This | True | Var | While
  deriving DecidableEq, Repr

/-- `scanner::Literal` (the scanned literal payload). -/
inductive SLit where
  | Identifier (s : String)
  | String (s : String)
  | Number (n : Rat)
  deriving DecidableEq, Repr

/-- `scanner::Token`.  `line`/`column` are `u64` in the source, `Nat` here. -/
structure Token where
  token_type : TokenType
  lexeme : String
  literal : Option SLit
  line : Nat
  column : Nat
  deriving DecidableEq, Repr

/-- `Token::single_character`. -/
def Token.single_character (token_type : TokenType) (c : Char) (line column : Nat) : Token :=
  { token_type, lexeme := c.toString, literal := none, line, column }

/-- `Token::two_character`. -/
def Token.two_character (token_type : TokenType) (c1 c2 : Char) (line column : Nat) : Token :=
  { token_type, lexeme := c1.toString.push c2, literal := none, line, column }

/-- `scanner::TokenErrorType`. -/
inductive TokenErrorType where
  | UnexpectedCharacter
  | UnterminatedString
  deriving DecidableEq, Repr

/-- `scanner::TokenError`. -/
structure TokenError where
  line : Nat
  column : Nat
  error : TokenErrorType
  deriving DecidableEq, Repr

/-- `scanner::ScanError`. -/
inductive ScanError where
  | NonAsciiCharacterFound
  | TokenError (errors : List TokenError)
  deriving DecidableEq, Repr

/-! ### Scanner (src/scanner.rs) -/

/-- The fixed keyword table built at the top of `scan_ascii`. -/
def keywords : List (String × TokenType) :=
  [("and", .And), ("class", .Class), ("else", .Else), ("false", .False),
   ("for", .For), ("fun", .Fun), ("if", .If), ("nil", .Nil), ("or", .Or),
   ("print", .Print), ("return", .Return), ("break", .Break), ("super", .Super),
   ("this", .This), ("true", .True), ("var", .Var), ("while", .While)]

/-- `is_ascii_alpha` in src/scanner.rs. -/
def is_ascii_alpha (c : Char) : Bool :=
  c.isAlpha || c == '_'

/-- `is_ascii_alphanumeric` in src/scanner.rs. -/
def is_ascii_alphanumeric (c : Char) : Bool :=
  is_ascii_alpha c || c.isDigit

/-- Digit run to a natural number (helper for the numeric literal payload). -/
def digitsToNat (ds : List Char) : Nat :=
  ds.foldl (fun n c => n * 10 + (c.toNat - 48)) 0

/-- Exact decimal value of a scanned number, modelling
`lexeme.parse::<f64>().unwrap()` (IEEE-754 rounding abstracted away;
no claim depends on it). -/
def decimalValue (intPart fracPart : List Char) : Rat :=
  (digitsToNat intPart : Rat) + (digitsToNat fracPart : Rat) / ((10 : Rat) ^ fracPart.length)

/-- One iteration of the scanning loop in `scan_ascii_line`: consumes the
head character `c` (at column `col`) plus whatever lookahead the branch
takes from `rest`, producing an optional token, an optional error, the
number of further characters of `rest` consumed by the branch, and a stop
flag (the `break` on a `//` comment). -/
def scanStep (line_num col : Nat) (c : Char) (rest : List (Nat × Char)) :
    Option Token × Option TokenError × Nat × Bool :=
  if c == '(' then (some (Token.single_character .LeftParen c line_num col), none, 0, false)
  else if c == ')' then (some (Token.single_character .RightParen c line_num col), none, 0, false)
  else if c == '\x7b' then (some (Token.single_character .LeftBrace c line_num col), none, 0, false)
  else if c == '\x7d' then (some (Token.single_character .RightBrace c line_num col), none, 0, false)
  else if c == ',' then (some (Token.single_character .Comma c line_num col), none, 0, false)
  else if c == '.' then (some (Token.single_character .Dot c line_num col), none, 0, false)
  else if c == '-' then (some (Token.single_character .Minus c line_num col), none, 0, false)
  else if c == '+' then (some (Token.single_character .Plus c line_num col), none, 0, false)
  else if c == ';' then (some (Token.single_character .Semicolon c line_num col), none, 0, false)
  else if c == '*' then (some (Token.single_character .Star c line_num col), none, 0, false)
  else if c == '!' then
    match rest with
    | (_, '=') :: _ => (some (Token.two_character .BangEqual c '=' line_num col), none, 1, false)
    | _ => (some (Token.single_character .Bang c line_num col), none, 0, false)
  else if c == '=' then
    match rest with
    | (_, '=') :: _ => (some (Token.two_character .EqualEqual c '=' line_num col), none, 1, false)
    | _ => (some (Token.single_character .Equal c line_num col), none, 0, false)
  else if c == '<' then
    match rest with
    | (_, '=') :: _ => (some (Token.two_character .LessEqual c '=' line_num col), none, 1, false)
    | _ => (some (Token.single_character .Less c line_num col), none, 0, false)
  else if c == '>' then
    match rest with
    | (_, '=') :: _ => (some (Token.two_character .GreaterEqual c '=' line_num col), none, 1, false)
    | _ => (some (Token.single_character .Greater c line_num col), none, 0, false)
  else if c == '/' then
    match rest with
    | (_, '/') :: _ => (none, none, 0, true)  -- comment: rest of line ignored
    | _ => (some (Token.single_character .Slash c line_num col), none, 0, false)
  else if c == '\t' || c == '\r' || c == ' ' then (none, none, 0, false)
  else if c == '"' then
    -- string literal: consume up to and including the closing quote
    let content := rest.takeWhile (fun p => p.2 ≠ '"')
    if content.length == rest.length then
      (none, some { line := line_num + 1, column := col + 1, error := .UnterminatedString },
       rest.length, false)
    else
      let contentStr := String.mk (content.map (·.2))
      (some { token_type := .String,
              lexeme := "\"" ++ contentStr ++ "\"",
              literal := some (.String contentStr),
              line := line_num + 1, column := col + 1 },
       none, content.length + 1, false)
  else if c.isDigit then
    let intRest := rest.takeWhile (fun p => p.2.isDigit)
    let afterInt := rest.drop intRest.length
    let intPart := c :: intRest.map (·.2)
    -- look past a dot only if a digit follows it
    match afterInt with
    | (_, '.') :: (p : Nat × Char) :: tl =>
      if p.2.isDigit then
        let fracDigits := ((p : Nat × Char) :: tl).takeWhile (fun q => q.2.isDigit)
        let fracPart := fracDigits.map (·.2)
        (some { token_type := .Number,
                lexeme := String.mk (intPart ++ '.' :: fracPart),
                literal := some (.Number (decimalValue intPart fracPart)),
                line := line_num + 1, column := col + 1 },
         none, intRest.length + 1 + fracDigits.length, false)
      else
        (some { token_type := .Number, lexeme := String.mk intPart,
                literal := some (.Number (decimalValue intPart [])),
                line := line_num + 1, column := col + 1 },
         none, intRest.length, false)
    | _ =>
      (some { token_type := .Number, lexeme := String.mk intPart,
              literal := some (.Number (decimalValue intPart [])),
              line := line_num + 1, column := col + 1 },
       none, intRest.length, false)
  else if is_ascii_alpha c then
    let idRest := rest.takeWhile (fun p => is_ascii_alphanumeric p.2)
    let lexeme := String.mk (c :: idRest.map (·.2))
    let token_type := ((keywords.find? (fun p => p.1 == lexeme)).map (·.2)).getD .Identifier
    (some { token_type, lexeme, literal := none,
            line := line_num + 1, column := col + 1 },
     none, idRest.length, false)
  else
    (none, some { line := line_num + 1, column := col + 1, error := .UnexpectedCharacter }, 0, false)

/-- The loop body of `scan_ascii_line`, over the enumerated characters of
one line.  Each iteration consumes at least the head character, so the
structural fuel `cs.length` supplied by `scan_ascii_line` always
suffices. -/
def scanLineAux (line_num : Nat) : Nat → List (Nat × Char) → List Token × List TokenError
  | _, [] => ([], [])
  | 0, _ :: _ => ([], [])
  | fuel + 1, (col, c) :: rest =>
    let step := scanStep line_num col c rest
    if step.2.2.2 then
      (step.1.toList, step.2.1.toList)
    else
      let tail := scanLineAux line_num fuel (rest.drop step.2.2.1)
      (step.1.toList ++ tail.1, step.2.1.toList ++ tail.2)

/-- `scan_ascii_line` (on the line's characters). -/
def scan_ascii_line (line_num : Nat) (line : List Char) :
    Except (List TokenError) (List Token) :=
  let r := scanLineAux line_num line.length line.enum
  if r.2.isEmpty then .ok r.1 else .error r.2

/-- Newline split of a character list (kernel-computable). -/
def splitNewlines : List Char → List Char → List (List Char)
  | [], acc => [acc.reverse]
  | c :: rest, acc =>
    if c = '\n' then acc.reverse :: splitNewlines rest []
    else splitNewlines rest (c :: acc)

/-- Rust `str::lines`: split at newlines, a final line ending produces no
trailing empty line, and one trailing carriage return is stripped per line. -/
def rustLines (s : String) : List (List Char) :=
  let parts := splitNewlines s.toList []
  let parts := if parts.getLast? = some [] then parts.dropLast else parts
  parts.map (fun l => if l.getLast? = some '\r' then l.dropLast else l)

/-- `scan_ascii`: scan line by line; once errors appeared, tokens of later
lines are dropped and only further errors accumulate. -/
def scan_ascii (source : String) : Except (List TokenError) (List Token) :=
  let folded := (rustLines source).enum.foldl
    (fun (acc : List Token × List TokenError) (p : Nat × List Char) =>
      let line_result := scan_ascii_line p.1 p.2
      if acc.2.isEmpty then
        match line_result with
        | .ok tokens => (acc.1 ++ tokens, acc.2)
        | .error errors => (acc.1, acc.2 ++ errors)
      else
        match line_result with
        | .ok _ => acc
        | .error errors => (acc.1, acc.2 ++ errors))
    ([], [])
  if folded.2.isEmpty then .ok folded.1 else .error folded.2

/-- `scanner::scan`. -/
def scan (source : String) : Except ScanError (List Token) :=
  if source.toList.all (fun c => c.toNat < 128) then
    match scan_ascii source with
    | .ok tokens => .ok tokens
    | .error v => .error (.TokenError v)
  else
    .error .NonAsciiCharacterFound

/-! ### AST (src/expression.rs, src/statement.rs)

The boxed `dyn Expr`/`dyn Stmt` trait objects of the source are collapsed
into tagged unions; the set of variants is exactly the set of structs
implementing the traits.  `statement::Class` (present in the resolver and
evaluator, whose statement.rs revision lacks it) carries its super-class
as the `expression::Variable` pair (name token, hops). -/

/-- `expression::Literal`. -/
inductive Lit where
  | Number (n : Rat)
  | String (s : String)
  | True
  | False
  | Nil
  deriving DecidableEq, Repr

/-- `expression::*` variants (Literal, Unary, Binary, Logical, Grouping,
Variable, Assignment, Call, Get, Set, This, Super). -/
inductive Expr where
  | Literal (l : Lit)
  | Unary (operator : Token) (right : Expr)
  | Binary (left right : Expr) (operator : Token)
  | Logical (left right : Expr) (operator : Token)
  | Grouping (e : Expr)
  | Variable (name : Token) (hops : Option Nat)
  | Assignment (name : Token) (hops : Option Nat) (value : Expr)
  | Call (right_paren : Token) (callee : Expr) (args : List Expr)
  | Get (name : Token) (object : Expr)
  | Set (name : Token) (object : Expr) (value : Expr)
  | This (keyword : Token) (hops : Option Nat)
  | Super (keyword method : Token) (hops_to_super hops_to_this : Option Nat)

mutual
/-- `statement::*` variants.  `Var` is `statement::Variable`;
`Class` is `statement::Class { name, super_class: Option<expression::Variable>,
methods: Vec<statement::Function> }`. -/
inductive Stmt where
  | Expression (expr : Expr)
  | Print (expr : Expr)
  | Var (name : Token) (initializer : Option Expr)
  | Block (statements : List Stmt)
  | If (cond : Expr) (then_branch : Stmt) (else_branch : Option Stmt)
  | While (cond : Expr) (body : Stmt)
  | Function (decl : FunctionDecl)
  | Break (keyword : Token)
  | Return (keyword : Token) (value : Option Expr)
  | Class (name : Token) (super_class : Option (Token × Option Nat)) (methods : List FunctionDecl)
/-- `statement::Function { name, params, body }`. -/
inductive FunctionDecl where
  | mk (name : Token) (params : List Token) (body : List Stmt)
end

/-- Name of a function declaration. -/
def FunctionDecl.name : FunctionDecl → Token
  | .mk n _ _ => n

/-- Parameters of a function declaration. -/
def FunctionDecl.params : FunctionDecl → List Token
  | .mk _ ps _ => ps

/-- Body of a function declaration. -/
def FunctionDecl.body : FunctionDecl → List Stmt
  | .mk _ _ b => b

/-- Whether a statement is a `Block` (used to state the `for` desugaring
claims). -/
def Stmt.isBlock : Stmt → Bool
  | .Block _ => true
  | _ => false

/-- `expression::AssignTarget`. -/
inductive AssignTarget where
  | Var (name : Token)
  | Get (object : Expr) (name : Token)

/-- `Expr::as_assign_target` (src/expression.rs): only `Variable` and `Get`
override the default `None`. -/
def as_assign_target : Expr → Option AssignTarget
  | .Variable name _ => some (.Var name)
  | .Get name object => some (.Get object name)
  | _ => none

/-! ### Parser (src/parser.rs)

The `Peekable<Iter<Token>>` cursor is modelled as an explicit `List Token`
threaded through every production; unbounded recursion is cut by fuel.
The parser.rs under src/ is an early revision without classes, property
access, `this`/`super`, or `AssignTarget`-based assignment; those parts
(final revision) are modelled from the spec grammar and marked below. -/

/-- `parser::ParseErrorType`.  `ExpectedRightBraceAfterClassBody` is the
final revision's kind listed in the spec (§4.2); the rest are from
src/parser.rs. -/
inductive ParseErrorType where
  | ExpectedToken (expected : TokenType) (found : Option TokenType)
  | ExpectedExpression
  | ExpectedStatement
  | InvalidAssignment
  | ExpectedForLoopInitializerOrSemiColon
  | ExpectedForLoopConditionOrSemiColon
  | ExpectedRightBraceAfterClassBody
  deriving DecidableEq, Repr

/-- `parser::ParseError`. -/
structure ParseError where
  error_type : ParseErrorType
  token : Option Token
  deriving DecidableEq, Repr

/-- Result of one parser production: success carries the rest of the token
stream, an error carries the cursor position where the error was raised
(for `synchronize`), `oof` is fuel exhaustion and `bug` a source `panic!`. -/
inductive PRes (α : Type) where
  | ok (a : α) (rest : List Token)
  | err (e : ParseError) (rest : List Token)
  | oof
  | bug

/-- Sequencing of parser results. -/
def pbind {α β : Type} (r : PRes α) (k : α → List Token → PRes β) : PRes β :=
  match r with
  | .ok a rest => k a rest
  | .err e rest => .err e rest
  | .oof => .oof
  | .bug => .bug

/-- `Parser::consume_token`: consume the next token iff it has the expected
type; on mismatch the cursor does not advance. -/
def consume_token (ts : List Token) (expected : TokenType) : PRes Token :=
  match ts with
  | t :: rest =>
    if t.token_type = expected then .ok t rest
    else .err { error_type := .ExpectedToken expected (some t.token_type), token := some t } ts
  | [] => .err { error_type := .ExpectedToken expected none, token := none } []

/-- The desugaring tail of `Parser::parse_for_statement` (src/parser.rs
lines 345-375): wrap the body with the increment, default the condition to
`true`, build the `While`, and wrap with the initializer. -/
def desugar_for (initializer : Option Stmt) (cond : Option Expr) (increment : Option Expr)
    (body : Stmt) : Stmt :=
  let body1 := match increment with
    | some inc => Stmt.Block [body, Stmt.Expression inc]
    | none => body
  let cond1 := match cond with
    | none => Expr.Literal .True
    | some c => c
  let body2 := Stmt.While cond1 body1
  match initializer with
  | some init => Stmt.Block [init, body2]
  | none => body2

mutual

/-- `Parser::parse_declaration`.  The `Class` arm is the final revision's
dispatch, modelled from the spec grammar (`declaration := classDecl |
funDecl | varDecl | statement`); the rest is src/parser.rs. -/
def parse_declaration : Nat → List Token → PRes Stmt
  | 0, _ => .oof
  | fuel + 1, ts =>
    match ts with
    | t :: _ =>
      match t.token_type with
      | .Var => parse_var_decl fuel ts
      | .Fun => parse_fun_decl fuel ts
      | .Class => parse_class_decl fuel ts
      | _ => parse_statement fuel ts
    | [] => parse_statement fuel ts

/-- `Parser::parse_fun_decl`. -/
def parse_fun_decl : Nat → List Token → PRes Stmt
  | 0, _ => .oof
  | fuel + 1, ts =>
    pbind (consume_token ts .Fun) fun _ ts =>
    pbind (parse_function fuel ts) fun d ts =>
    .ok (Stmt.Function d) ts

/-- `Parser::parse_function` (returns the `statement::Function` record). -/
def parse_function : Nat → List Token → PRes FunctionDecl
  | 0, _ => .oof
  | fuel + 1, ts =>
    pbind (consume_token ts .Identifier) fun name ts =>
    pbind (consume_token ts .LeftParen) fun _ ts =>
    pbind (parse_params fuel ts) fun params ts =>
    pbind (consume_token ts .RightParen) fun _ ts =>
    pbind (parse_block fuel ts) fun body ts =>
    .ok (FunctionDecl.mk name params body) ts

/-- Modelled from the spec: `classDecl := "class" IDENT ( "<" IDENT )?
"{" function* "}"`.  Class parsing is absent from the early-revision
src/parser.rs; the produced node is the `statement::Class` consumed by the
resolver and evaluator under src/. -/
def parse_class_decl : Nat → List Token → PRes Stmt
  | 0, _ => .oof
  | fuel + 1, ts =>
    pbind (consume_token ts .Class) fun _ ts =>
    pbind (consume_token ts .Identifier) fun name ts =>
    let superAndRest : Option (Token × Option Nat) × List Token :=
      match ts with
      | l :: supName :: rest =>
        if l.token_type = .Less ∧ supName.token_type = .Identifier then
          (some (supName, none), rest)
        else (none, ts)
      | _ => (none, ts)
    pbind (consume_token superAndRest.2 .LeftBrace) fun _ ts =>
    pbind (parse_class_methods fuel ts) fun methods ts =>
    match ts with
    | rb :: rest =>
      if rb.token_type = .RightBrace then .ok (Stmt.Class name superAndRest.1 methods) rest
      else .err { error_type := .ExpectedRightBraceAfterClassBody, token := some rb } ts
    | [] => .err { error_type := .ExpectedRightBraceAfterClassBody, token := none } []

/-- Modelled from the spec: the `function*` loop of `classDecl`, running
until the closing brace. -/
def parse_class_methods : Nat → List Token → PRes (List FunctionDecl)
  | 0, _ => .oof
  | fuel + 1, ts =>
    match ts with
    | [] => .ok [] []
    | t :: _ =>
      if t.token_type = .RightBrace then .ok [] ts
      else
        pbind (parse_function fuel ts) fun m ts =>
        pbind (parse_class_methods fuel ts) fun ms ts =>
        .ok (m :: ms) ts

/-- `Parser::parse_params`: empty on an immediate `)`. -/
def parse_params : Nat → List Token → PRes (List Token)
  | 0, _ => .oof
  | fuel + 1, ts =>
    match ts with
    | t :: _ =>
      if t.token_type = .RightParen then .ok [] ts
      else parse_params_loop fuel ts
    | [] => parse_params_loop fuel ts

/-- The comma-separated loop inside `Parser::parse_params`. -/
def parse_params_loop : Nat → List Token → PRes (List Token)
  | 0, _ => .oof
  | fuel + 1, ts =>
    pbind (consume_token ts .Identifier) fun p ts =>
    match ts with
    | t :: rest =>
      if t.token_type = .Comma then
        pbind (parse_params_loop fuel rest) fun ps ts => .ok (p :: ps) ts
      else .ok [p] ts
    | [] => .ok [p] []

/-- `Parser::parse_var_decl`. -/
def parse_var_decl : Nat → List Token → PRes Stmt
  | 0, _ => .oof
  | fuel + 1, ts =>
    pbind (consume_token ts .Var) fun _ ts =>
    pbind (consume_token ts .Identifier) fun name ts =>
    match ts with
    | t :: rest =>
      if t.token_type = .Equal then
        pbind (parse_expr fuel rest) fun init ts =>
        pbind (consume_token ts .Semicolon) fun _ ts =>
        .ok (Stmt.Var name (some init)) ts
      else
        pbind (consume_token ts .Semicolon) fun _ ts =>
        .ok (Stmt.Var name none) ts
    | [] =>
      pbind (consume_token [] .Semicolon) fun _ ts =>
      .ok (Stmt.Var name none) ts

/-- `Parser::parse_statement`. -/
def parse_statement : Nat → List Token → PRes Stmt
  | 0, _ => .oof
  | fuel + 1, ts =>
    match ts with
    | t :: _ =>
      match t.token_type with
      | .If => parse_if_statement fuel ts
      | .For => parse_for_statement fuel ts
      | .While => parse_while_statement fuel ts
      | .Print => parse_print_statement fuel ts
      | .Break => parse_break_statement fuel ts
      | .Return => parse_return_statement fuel ts
      | .LeftBrace => parse_block_statement fuel ts
      | _ => parse_expr_statement fuel ts
    | [] => .err { error_type := .ExpectedStatement, token := none } []

/-- `Parser::parse_print_statement`. -/
def parse_print_statement : Nat → List Token → PRes Stmt
  | 0, _ => .oof
  | fuel + 1, ts =>
    pbind (consume_token ts .Print) fun _ ts =>
    pbind (parse_expr fuel ts) fun e ts =>
    pbind (consume_token ts .Semicolon) fun _ ts =>
    .ok (Stmt.Print e) ts

/-- `Parser::parse_break_statement`. -/
def parse_break_statement : Nat → List Token → PRes Stmt
  | 0, _ => .oof
  | _fuel + 1, ts =>
    pbind (consume_token ts .Break) fun brk ts =>
    pbind (consume_token ts .Semicolon) fun _ ts =>
    .ok (Stmt.Break brk) ts

/-- `Parser::parse_return_statement`: try to consume `;`; if that fails
parse a value expression followed by `;`. -/
def parse_return_statement : Nat → List Token → PRes Stmt
  | 0, _ => .oof
  | fuel + 1, ts =>
    pbind (consume_token ts .Return) fun ret ts =>
    match consume_token ts .Semicolon with
    | .ok _ rest => .ok (Stmt.Return ret none) rest
    | _ =>
      pbind (parse_expr fuel ts) fun e ts =>
      pbind (consume_token ts .Semicolon) fun _ ts =>
      .ok (Stmt.Return ret (some e)) ts

/-- `Parser::parse_expr_statement`. -/
def parse_expr_statement : Nat → List Token → PRes Stmt
  | 0, _ => .oof
  | fuel + 1, ts =>
    pbind (parse_expr fuel ts) fun e ts =>
    pbind (consume_token ts .Semicolon) fun _ ts =>
    .ok (Stmt.Expression e) ts

/-- `Parser::parse_if_statement`. -/
def parse_if_statement : Nat → List Token → PRes Stmt
  | 0, _ => .oof
  | fuel + 1, ts =>
    pbind (consume_token ts .If) fun _ ts =>
    pbind (consume_token ts .LeftParen) fun _ ts =>
    pbind (parse_expr fuel ts) fun cond ts =>
    pbind (consume_token ts .RightParen) fun _ ts =>
    pbind (parse_statement fuel ts) fun then_branch ts =>
    match ts with
    | t :: rest =>
      if t.token_type = .Else then
        pbind (parse_statement fuel rest) fun else_stmt ts =>
        .ok (Stmt.If cond then_branch (some else_stmt)) ts
      else .ok (Stmt.If cond then_branch none) ts
    | [] => .ok (Stmt.If cond then_branch none) []

/-- The initializer clause of `Parser::parse_for_statement`. -/
def parse_for_init : Nat → Token → List Token → PRes (Option Stmt)
  | 0, _, _ => .oof
  | fuel + 1, left_paren, ts =>
    match ts with
    | [] => .err { error_type := .ExpectedForLoopInitializerOrSemiColon, token := some left_paren } []
    | t :: rest =>
      match t.token_type with
      | .Semicolon => .ok none rest
      | .Var => pbind (parse_var_decl fuel ts) fun s ts => .ok (some s) ts
      | _ => pbind (parse_expr_statement fuel ts) fun s ts => .ok (some s) ts

/-- The condition clause of `Parser::parse_for_statement` (the `;` after it
is consumed by the caller). -/
def parse_for_cond : Nat → Token → List Token → PRes (Option Expr)
  | 0, _, _ => .oof
  | fuel + 1, left_paren, ts =>
    match ts with
    | [] => .err { error_type := .ExpectedForLoopConditionOrSemiColon, token := some left_paren } []
    | t :: _ =>
      match t.token_type with
      | .Semicolon => .ok none ts
      | _ => pbind (parse_expr fuel ts) fun c ts => .ok (some c) ts

/-- The increment clause of `Parser::parse_for_statement` (an exhausted
stream is left for the following `)` consumption to report). -/
def parse_for_inc : Nat → List Token → PRes (Option Expr)
  | 0, _ => .oof
  | fuel + 1, ts =>
    match ts with
    | [] => .ok none []
    | t :: _ =>
      match t.token_type with
      | .RightParen => .ok none ts
      | _ => pbind (parse_expr fuel ts) fun e ts => .ok (some e) ts

/-- `Parser::parse_for_statement`: parse the three clauses and the body,
then desugar into a while loop. -/
def parse_for_statement : Nat → List Token → PRes Stmt
  | 0, _ => .oof
  | fuel + 1, ts =>
    pbind (consume_token ts .For) fun _ ts =>
    pbind (consume_token ts .LeftParen) fun left_paren ts =>
    pbind (parse_for_init fuel left_paren ts) fun initializer ts =>
    pbind (parse_for_cond fuel left_paren ts) fun cond ts =>
    pbind (consume_token ts .Semicolon) fun _ ts =>
    pbind (parse_for_inc fuel ts) fun increment ts =>
    pbind (consume_token ts .RightParen) fun _ ts =>
    pbind (parse_statement fuel ts) fun body ts =>
    .ok (desugar_for initializer cond increment body) ts

/-- `Parser::parse_while_statement`. -/
def parse_while_statement : Nat → List Token → PRes Stmt
  | 0, _ => .oof
  | fuel + 1, ts =>
    pbind (consume_token ts .While) fun _ ts =>
    pbind (consume_token ts .LeftParen) fun _ ts =>
    pbind (parse_expr fuel ts) fun cond ts =>
    pbind (consume_token ts .RightParen) fun _ ts =>
    pbind (parse_statement fuel ts) fun body ts =>
    .ok (Stmt.While cond body) ts

/-- `Parser::parse_block_statement`. -/
def parse_block_statement : Nat → List Token → PRes Stmt
  | 0, _ => .oof
  | fuel + 1, ts =>
    pbind (parse_block fuel ts) fun statements ts =>
    .ok (Stmt.Block statements) ts

/-- `Parser::parse_block`: `{`, declarations until `}`, `}`. -/
def parse_block : Nat → List Token → PRes (List Stmt)
  | 0, _ => .oof
  | fuel + 1, ts =>
    pbind (consume_token ts .LeftBrace) fun _ ts =>
    pbind (parse_block_loop fuel ts) fun statements ts =>
    pbind (consume_token ts .RightBrace) fun _ ts =>
    .ok statements ts

/-- The declaration loop inside `Parser::parse_block`. -/
def parse_block_loop : Nat → List Token → PRes (List Stmt)
  | 0, _ => .oof
  | fuel + 1, ts =>
    match ts with
    | [] => .ok [] []
    | t :: _ =>
      if t.token_type = .RightBrace then .ok [] ts
      else
        pbind (parse_declaration fuel ts) fun s ts =>
        pbind (parse_block_loop fuel ts) fun ss ts =>
        .ok (s :: ss) ts

/-- `Parser::parse_expr`. -/
def parse_expr : Nat → List Token → PRes Expr
  | 0, _ => .oof
  | fuel + 1, ts => parse_assignment fuel ts

/-- `Parser::parse_assignment`, final revision modelled from the spec:
parse the left side as `logic_or`; if `=` follows, parse the right side
recursively and re-interpret the left side through `as_assign_target`
(src/expression.rs): a `Var` target yields `Assignment`, a `Get` target
yields `Set`, anything else is `InvalidAssignment`. -/
def parse_assignment : Nat → List Token → PRes Expr
  | 0, _ => .oof
  | fuel + 1, ts =>
    pbind (parse_logic_or fuel ts) fun left ts =>
    match ts with
    | eq :: rest =>
      if eq.token_type = .Equal then
        pbind (parse_assignment fuel rest) fun right ts =>
        match as_assign_target left with
        | some (.Var name) => .ok (Expr.Assignment name none right) ts
        | some (.Get object name) => .ok (Expr.Set name object right) ts
        | none => .err { error_type := .InvalidAssignment, token := some eq } ts
      else .ok left ts
    | [] => .ok left []

/-- `Parser::parse_logic_or`. -/
def parse_logic_or : Nat → List Token → PRes Expr
  | 0, _ => .oof
  | fuel + 1, ts =>
    pbind (parse_logic_and fuel ts) fun left ts =>
    parse_logic_or_loop fuel left ts

/-- The `or` loop inside `Parser::parse_logic_or`. -/
def parse_logic_or_loop : Nat → Expr → List Token → PRes Expr
  | 0, _, _ => .oof
  | fuel + 1, result, ts =>
    match ts with
    | t :: rest =>
      if t.token_type = .Or then
        pbind (parse_logic_and fuel rest) fun right ts =>
        parse_logic_or_loop fuel (Expr.Logical result right t) ts
      else .ok result ts
    | [] => .ok result []

/-- `Parser::parse_logic_and`. -/
def parse_logic_and : Nat → List Token → PRes Expr
  | 0, _ => .oof
  | fuel + 1, ts =>
    pbind (parse_equality fuel ts) fun left ts =>
    parse_logic_and_loop fuel left ts

/-- The `and` loop inside `Parser::parse_logic_and`. -/
def parse_logic_and_loop : Nat → Expr → List Token → PRes Expr
  | 0, _, _ => .oof
  | fuel + 1, result, ts =>
    match ts with
    | t :: rest =>
      if t.token_type = .And then
        pbind (parse_equality fuel rest) fun right ts =>
        parse_logic_and_loop fuel (Expr.Logical result right t) ts
      else .ok result ts
    | [] => .ok result []

/-- `Parser::parse_equality`. -/
def parse_equality : Nat → List Token → PRes Expr
  | 0, _ => .oof
  | fuel + 1, ts =>
    pbind (parse_comparison fuel ts) fun left ts =>
    parse_equality_loop fuel left ts

/-- The operator loop inside `Parser::parse_equality`. -/
def parse_equality_loop : Nat → Expr → List Token → PRes Expr
  | 0, _, _ => .oof
  | fuel + 1, result, ts =>
    match ts with
    | t :: rest =>
      if t.token_type = .EqualEqual ∨ t.token_type = .BangEqual then
        pbind (parse_comparison fuel rest) fun right ts =>
        parse_equality_loop fuel (Expr.Binary result right t) ts
      else .ok result ts
    | [] => .ok result []

/-- `Parser::parse_comparison`. -/
def parse_comparison : Nat → List Token → PRes Expr
  | 0, _ => .oof
  | fuel + 1, ts =>
    pbind (parse_term fuel ts) fun left ts =>
    parse_comparison_loop fuel left ts

/-- The operator loop inside `Parser::parse_comparison`. -/
def parse_comparison_loop : Nat → Expr → List Token → PRes Expr
  | 0, _, _ => .oof
  | fuel + 1, result, ts =>
    match ts with
    | t :: rest =>
      if t.token_type = .Less ∨ t.token_type = .Greater ∨
         t.token_type = .LessEqual ∨ t.token_type = .GreaterEqual then
        pbind (parse_term fuel rest) fun right ts =>
        parse_comparison_loop fuel (Expr.Binary result right t) ts
      else .ok result ts
    | [] => .ok result []

/-- `Parser::parse_term`. -/
def parse_term : Nat → List Token → PRes Expr
  | 0, _ => .oof
  | fuel + 1, ts =>
    pbind (parse_factor fuel ts) fun left ts =>
    parse_term_loop fuel left ts

/-- The operator loop inside `Parser::parse_term`. -/
def parse_term_loop : Nat → Expr → List Token → PRes Expr
  | 0, _, _ => .oof
  | fuel + 1, result, ts =>
    match ts with
    | t :: rest =>
      if t.token_type = .Plus ∨ t.token_type = .Minus then
        pbind (parse_factor fuel rest) fun right ts =>
        parse_term_loop fuel (Expr.Binary result right t) ts
      else .ok result ts
    | [] => .ok result []

/-- `Parser::parse_factor`. -/
def parse_factor : Nat → List Token → PRes Expr
  | 0, _ => .oof
  | fuel + 1, ts =>
    pbind (parse_unary fuel ts) fun left ts =>
    parse_factor_loop fuel left ts

/-- The operator loop inside `Parser::parse_factor`. -/
def parse_factor_loop : Nat → Expr → List Token → PRes Expr
  | 0, _, _ => .oof
  | fuel + 1, result, ts =>
    match ts with
    | t :: rest =>
      if t.token_type = .Star ∨ t.token_type = .Slash then
        pbind (parse_unary fuel rest) fun right ts =>
        parse_factor_loop fuel (Expr.Binary result right t) ts
      else .ok result ts
    | [] => .ok result []

/-- `Parser::parse_unary`. -/
def parse_unary : Nat → List Token → PRes Expr
  | 0, _ => .oof
  | fuel + 1, ts =>
    match ts with
    | t :: rest =>
      if t.token_type = .Bang ∨ t.token_type = .Minus then
        pbind (parse_unary fuel rest) fun right ts =>
        .ok (Expr.Unary t right) ts
      else parse_call fuel ts
    | [] => parse_call fuel []

/-- `Parser::parse_call`. -/
def parse_call : Nat → List Token → PRes Expr
  | 0, _ => .oof
  | fuel + 1, ts =>
    pbind (parse_primary fuel ts) fun e ts =>
    parse_call_loop fuel e ts

/-- The call/property loop inside `Parser::parse_call`.  The `(` arm is
src/parser.rs; the `.` arm (property access, producing `Get`) is the final
revision, modelled from the spec grammar
`call := primary ( "(" args? ")" | "." IDENT )*`. -/
def parse_call_loop : Nat → Expr → List Token → PRes Expr
  | 0, _, _ => .oof
  | fuel + 1, e, ts =>
    match ts with
    | t :: rest =>
      match t.token_type with
      | .LeftParen =>
        pbind (parse_args fuel rest) fun args ts =>
        pbind (consume_token ts .RightParen) fun right_paren ts =>
        parse_call_loop fuel (Expr.Call right_paren e args) ts
      | .Dot =>
        pbind (consume_token rest .Identifier) fun name ts =>
        parse_call_loop fuel (Expr.Get name e) ts
      | _ => .ok e ts
    | [] => .ok e []

/-- `Parser::parse_args`: empty on an immediate `)`. -/
def parse_args : Nat → List Token → PRes (List Expr)
  | 0, _ => .oof
  | fuel + 1, ts =>
    match ts with
    | t :: _ =>
      if t.token_type = .RightParen then .ok [] ts
      else parse_args_loop fuel ts
    | [] => parse_args_loop fuel []

/-- The comma-separated loop inside `Parser::parse_args`. -/
def parse_args_loop : Nat → List Token → PRes (List Expr)
  | 0, _ => .oof
  | fuel + 1, ts =>
    pbind (parse_expr fuel ts) fun e ts =>
    match ts with
    | t :: rest =>
      if t.token_type = .Comma then
        pbind (parse_args_loop fuel rest) fun es ts => .ok (e :: es) ts
      else .ok [e] ts
    | [] => .ok [e] []

/-- `Parser::parse_primary`.  The `This` and `Super` arms are the final
revision, modelled from the spec grammar
(`primary := ... | "this" | "super" "." IDENT | ...`);
the others are src/parser.rs. -/
def parse_primary : Nat → List Token → PRes Expr
  | 0, _ => .oof
  | fuel + 1, ts =>
    match ts with
    | token :: rest =>
      match token.token_type with
      | .False => .ok (Expr.Literal .False) rest
      | .True => .ok (Expr.Literal .True) rest
      | .Nil => .ok (Expr.Literal .Nil) rest
      | .String =>
        match token.literal with
        | some (.String s) => .ok (Expr.Literal (.String s)) rest
        | _ => .bug  -- panic!("Expected string literal")
      | .Number =>
        match token.literal with
        | some (.Number n) => .ok (Expr.Literal (.Number n)) rest
        | _ => .bug  -- panic!("Expected number literal")
      | .LeftParen =>
        pbind (parse_expr fuel rest) fun nested ts =>
        pbind (consume_token ts .RightParen) fun _ ts =>
        .ok (Expr.Grouping nested) ts
      | .Identifier => .ok (Expr.Variable token none) rest
      | .This => .ok (Expr.This token none) rest
      | .Super =>
        pbind (consume_token rest .Dot) fun _ ts =>
        pbind (consume_token ts .Identifier) fun method ts =>
        .ok (Expr.Super token method none none) ts
      | _ => .err { error_type := .ExpectedExpression, token := some token } rest
    | [] => .err { error_type := .ExpectedExpression, token := none } []

end

/-- `parser::synchronize`: swallow the error token (stop if it was `;`),
then skip until a `;` is swallowed or a declaration/statement keyword is
on the cursor. -/
def synchronize_loop : List Token → List Token
  | [] => []
  | t :: rest =>
    match t.token_type with
    | .If | .Fun | .Var | .For | .While | .Print | .Class | .Return => t :: rest
    | .Semicolon => rest
    | _ => synchronize_loop rest

/-- `parser::synchronize` (entry: unconditionally consume one token first). -/
def synchronize : List Token → List Token
  | [] => []
  | t :: rest =>
    if t.token_type = .Semicolon then rest
    else synchronize_loop rest

/-- Result of `Parser::parse`. -/
inductive ParseOutcome where
  | ok (statements : List Stmt)
  | err (errors : List ParseError)
  | oof
  | bug

/-- The statement loop of `Parser::parse`: statements accumulate only while
no error has occurred; on error, synchronize and continue collecting
errors. -/
def parse_aux : Nat → List Token → List Stmt → List ParseError → ParseOutcome
  | 0, _, _, _ => .oof
  | fuel + 1, ts, statements, errors =>
    match ts with
    | [] => if errors.isEmpty then .ok statements else .err errors
    | _ :: _ =>
      match parse_declaration fuel ts with
      | .ok stmt rest =>
        parse_aux fuel rest (if errors.isEmpty then statements ++ [stmt] else statements) errors
      | .err e rest => parse_aux fuel (synchronize rest) statements (errors ++ [e])
      | .oof => .oof
      | .bug => .bug

/-- `Parser::parse`. -/
def parse (fuel : Nat) (tokens : List Token) : ParseOutcome :=
  parse_aux fuel tokens [] []

/-- `Parser::parse_single_expr`: exactly one expression, failing if input
remains. -/
def parse_single_expr (fuel : Nat) (tokens : List Token) : PRes Expr :=
  pbind (parse_expr fuel tokens) fun e rest =>
  match rest with
  | [] => .ok e []
  | _ => .err { error_type := .ExpectedExpression, token := tokens.head? } rest

/-! ### Resolver (src/resolver.rs)

The resolver's `&mut self` state is threaded explicitly; `HashMap` scopes
are association lists (deterministic insert/lookup; the warning iteration
order of `check_for_unused_locals` is the list order).  `Vec` stacks
(`scopes`, `context`) are lists with the head as the top of the stack. -/

/-- `resolver::VarInitializerState`. -/
inductive VarInitializerState where
  | Unresolved
  | Resolved
  deriving DecidableEq, Repr

/-- `resolver::LocalVarState`. -/
structure LocalVarState where
  var_name : Token
  init_state : VarInitializerState
  used : Bool
  deriving DecidableEq, Repr

/-- `resolver::Context`. -/
inductive Context where
  | Function
  | Method
  | InitializerMethod
  | Loop
  | Class
  deriving DecidableEq, Repr

/-- `resolver::ResolutionError`. -/
inductive ResolutionError where
  | VariableAlreadyDeclared (t : Token)
  | CantReadLocalVarInItsInitializer (t : Token)
  | ReturnNotInFunction (t : Token)
  | CantReturnValueFromAnInitializer (t : Token)
  | BreakNotInLoop (t : Token)
  | ThisNotInsideClass (t : Token)
  | ClassCantInheritFromItself (t : Token)
  deriving DecidableEq, Repr

/-- `resolver::Warning`. -/
inductive Warning where
  | UnusedLocalVar (t : Token)
  deriving DecidableEq, Repr

/-- One scope of the resolver: `HashMap<String, LocalVarState>` as an
association list. -/
abbrev RScope := List (String × LocalVarState)

/-- `HashMap::insert` on an association-list scope: replace in place when
the key is present, otherwise prepend. -/
def rscope_insert (sc : RScope) (k : String) (v : LocalVarState) : RScope :=
  if sc.any (fun p => p.1 = k) then
    sc.map (fun p => if p.1 = k then (k, v) else p)
  else (k, v) :: sc

/-- `HashMap::get` on an association-list scope. -/
def rscope_find (sc : RScope) (k : String) : Option LocalVarState :=
  (sc.find? (fun p => p.1 = k)).map (·.2)

/-- The mutable state of `resolver::Resolver`. -/
structure RState where
  scopes : List RScope
  errors : List ResolutionError
  warnings : List Warning
  context : List Context
  deriving DecidableEq, Repr

/-- `Resolver::new`. -/
def RState.fresh : RState :=
  { scopes := [], errors := [], warnings := [], context := [] }

/-- `Resolver::add_err`. -/
def RState.add_err (rs : RState) (e : ResolutionError) : RState :=
  { rs with errors := rs.errors ++ [e] }

/-- `Resolver::begin_scope`. -/
def RState.begin_scope (rs : RState) : RState :=
  { rs with scopes := ([] : RScope) :: rs.scopes }

/-- `Resolver::check_for_unused_locals`: warn on each unused entry of the
innermost scope. -/
def RState.check_for_unused_locals (rs : RState) : RState :=
  match rs.scopes with
  | [] => rs
  | sc :: _ =>
    { rs with warnings := rs.warnings ++
        (sc.filter (fun p => p.2.used = false)).map (fun p => .UnusedLocalVar p.2.var_name) }

/-- `Resolver::end_scope`. -/
def RState.end_scope (rs : RState) : RState :=
  let rs := rs.check_for_unused_locals
  { rs with scopes := rs.scopes.tail }

/-- `Resolver::declare`: error when the name is already in the innermost
scope, otherwise insert it `Unresolved`; no-op with no open scope. -/
def RState.declare (rs : RState) (name : Token) : RState :=
  match rs.scopes with
  | [] => rs
  | sc :: rest =>
    if (rscope_find sc name.lexeme).isSome then
      rs.add_err (.VariableAlreadyDeclared name)
    else
      let entry : LocalVarState := ⟨name, .Unresolved, false⟩
      { rs with scopes := rscope_insert sc name.lexeme entry :: rest }

/-- `Resolver::define`: insert as `Resolved` in the innermost scope. -/
def RState.define (rs : RState) (name : Token) : RState :=
  match rs.scopes with
  | [] => rs
  | sc :: rest =>
    let entry : LocalVarState := ⟨name, .Resolved, false⟩
    { rs with scopes := rscope_insert sc name.lexeme entry :: rest }

/-- The synthetic `this` token built by `Resolver::define_this` and
`visit_super`. -/
def thisToken : Token :=
  { token_type := .This, lexeme := "this", literal := none, line := 0, column := 0 }

/-- The synthetic `super` token built by `Resolver::define_super`. -/
def superToken : Token :=
  { token_type := .Super, lexeme := "super", literal := none, line := 0, column := 0 }

/-- `Resolver::define_this`: predefine `this`, pre-marked used. -/
def RState.define_this (rs : RState) : RState :=
  match rs.scopes with
  | [] => rs
  | sc :: rest =>
    let entry : LocalVarState := ⟨thisToken, .Resolved, true⟩
    { rs with scopes := rscope_insert sc "this" entry :: rest }

/-- `Resolver::define_super`: predefine `super`, pre-marked used. -/
def RState.define_super (rs : RState) : RState :=
  match rs.scopes with
  | [] => rs
  | sc :: rest =>
    let entry : LocalVarState := ⟨superToken, .Resolved, true⟩
    { rs with scopes := rscope_insert sc "super" entry :: rest }

/-- The scope walk of `Resolver::resolve_local`: index of the innermost
scope containing the name, with its `used` bit set. -/
def resolve_local_aux : List RScope → String → Option (Nat × List RScope)
  | [], _ => none
  | sc :: rest, k =>
    if (rscope_find sc k).isSome then
      some (0, sc.map (fun p => if p.1 = k then (p.1, { p.2 with used := true }) else p) :: rest)
    else
      (resolve_local_aux rest k).map (fun r => (r.1 + 1, sc :: r.2))

/-- `Resolver::resolve_local` (keyed on the lexeme, as the source only
reads `name.lexeme`). -/
def RState.resolve_local (rs : RState) (lexeme : String) : Option Nat × RState :=
  match resolve_local_aux rs.scopes lexeme with
  | none => (none, rs)
  | some (i, scopes) => (some i, { rs with scopes })

/-- The `return`-context search of `Resolver::visit_return`: the nearest
enclosing function-like context. -/
def nearest_function_context (ctx : List Context) : Option Context :=
  ctx.find? (fun c => c = .Function ∨ c = .Method ∨ c = .InitializerMethod)

/-- The context walk of `Resolver::visit_break`. -/
def resolveBreakAux (rs : RState) (keyword : Token) : List Context → RState
  | [] => rs.add_err (.BreakNotInLoop keyword)
  | c :: rest =>
    match c with
    | .Function | .Method | .InitializerMethod => rs.add_err (.BreakNotInLoop keyword)
    | .Loop => rs
    | .Class => resolveBreakAux rs keyword rest

/-- `Resolver::visit_break`: walk the context stack outward; a
function-like context before a `Loop` (or exhausting the stack) is
`BreakNotInLoop`. -/
def resolveBreak (rs : RState) (keyword : Token) : RState :=
  resolveBreakAux rs keyword rs.context

mutual

/-- `expression::MutVisitor` for `Resolver` (src/resolver.rs): resolve an
expression, returning it with hops annotations filled in. -/
def resolveE : Nat → RState → Expr → Option (Expr × RState)
  | 0, _, _ => none
  | fuel + 1, rs, e =>
    match e with
    | .Literal l => some (.Literal l, rs)
    | .Unary op right => do
      let (right1, rs) ← resolveE fuel rs right
      some (.Unary op right1, rs)
    | .Binary left right op => do
      let (left1, rs) ← resolveE fuel rs left
      let (right1, rs) ← resolveE fuel rs right
      some (.Binary left1 right1 op, rs)
    | .Logical left right op => do
      let (left1, rs) ← resolveE fuel rs left
      let (right1, rs) ← resolveE fuel rs right
      some (.Logical left1 right1 op, rs)
    | .Grouping sub => do
      let (sub1, rs) ← resolveE fuel rs sub
      some (.Grouping sub1, rs)
    | .Variable name hops =>
      -- visit_variable: reading a local that is `Unresolved` in the
      -- innermost scope is an error (early return, hops untouched)
      let unresolvedHere : Bool :=
        match rs.scopes with
        | [] => false
        | sc :: _ =>
          match rscope_find sc name.lexeme with
          | some st => st.init_state == .Unresolved
          | none => false
      if unresolvedHere then
        some (.Variable name hops, rs.add_err (.CantReadLocalVarInItsInitializer name))
      else
        let (h, rs) := rs.resolve_local name.lexeme
        some (.Variable name h, rs)
    | .Assignment name _hops value => do
      let (value1, rs) ← resolveE fuel rs value
      let (h, rs) := rs.resolve_local name.lexeme
      some (.Assignment name h value1, rs)
    | .Call right_paren callee args => do
      let (callee1, rs) ← resolveE fuel rs callee
      let (args1, rs) ← resolveEList fuel rs args
      some (.Call right_paren callee1 args1, rs)
    | .Get name object => do
      let (object1, rs) ← resolveE fuel rs object
      some (.Get name object1, rs)
    | .Set name object value => do
      let (object1, rs) ← resolveE fuel rs object
      let (value1, rs) ← resolveE fuel rs value
      some (.Set name object1 value1, rs)
    | .This keyword hops =>
      if (rs.context.find? (fun c => c = .Class)).isNone then
        some (.This keyword hops, rs.add_err (.ThisNotInsideClass keyword))
      else
        let (h, rs) := rs.resolve_local keyword.lexeme
        some (.This keyword h, rs)
    | .Super keyword method _hs _ht =>
      let (hs, rs) := rs.resolve_local keyword.lexeme
      let (ht, rs) := rs.resolve_local thisToken.lexeme
      some (.Super keyword method hs ht, rs)

/-- `Resolver::resolve_expr` over an argument list (`visit_call`'s loop). -/
def resolveEList : Nat → RState → List Expr → Option (List Expr × RState)
  | 0, _, _ => none
  | _fuel + 1, rs, [] => some ([], rs)
  | fuel + 1, rs, e :: es => do
    let (e1, rs) ← resolveE fuel rs e
    let (es1, rs) ← resolveEList fuel rs es
    some (e1 :: es1, rs)

/-- `statement::MutVisitor` for `Resolver` (src/resolver.rs). -/
def resolveS : Nat → RState → Stmt → Option (Stmt × RState)
  | 0, _, _ => none
  | fuel + 1, rs, s =>
    match s with
    | .Expression e => do
      let (e1, rs) ← resolveE fuel rs e
      some (.Expression e1, rs)
    | .Print e => do
      let (e1, rs) ← resolveE fuel rs e
      some (.Print e1, rs)
    | .Var name initializer =>
      -- visit_variable (statement): declare, resolve initializer, define
      let rs := rs.declare name
      match initializer with
      | some init => do
        let (init1, rs) ← resolveE fuel rs init
        some (.Var name (some init1), rs.define name)
      | none => some (.Var name none, rs.define name)
    | .Block statements => do
      let rs := rs.begin_scope
      let (statements1, rs) ← resolveSList fuel rs statements
      some (.Block statements1, rs.end_scope)
    | .If cond then_branch else_branch => do
      let (cond1, rs) ← resolveE fuel rs cond
      let (then1, rs) ← resolveS fuel rs then_branch
      match else_branch with
      | some br => do
        let (else1, rs) ← resolveS fuel rs br
        some (.If cond1 then1 (some else1), rs)
      | none => some (.If cond1 then1 none, rs)
    | .While cond body => do
      let rs := { rs with context := Context.Loop :: rs.context }
      let (cond1, rs) ← resolveE fuel rs cond
      let (body1, rs) ← resolveS fuel rs body
      some (.While cond1 body1, { rs with context := rs.context.tail })
    | .Function decl => do
      let rs := { rs with context := Context.Function :: rs.context }
      let rs := rs.declare decl.name
      let rs := rs.define decl.name
      let (decl1, rs) ← resolveFunction fuel rs decl
      some (.Function decl1, { rs with context := rs.context.tail })
    | .Break keyword =>
      some (.Break keyword, resolveBreak rs keyword)
    | .Return keyword value =>
      match nearest_function_context rs.context with
      | none => some (.Return keyword value, rs.add_err (.ReturnNotInFunction keyword))
      | some ctx =>
        if ctx = .InitializerMethod ∧ value.isSome then
          some (.Return keyword value, rs.add_err (.CantReturnValueFromAnInitializer keyword))
        else
          match value with
          | some e => do
            let (e1, rs) ← resolveE fuel rs e
            some (.Return keyword (some e1), rs)
          | none => some (.Return keyword none, rs)
    | .Class name super_class methods =>
      -- visit_class
      let rs := { rs with context := Context.Class :: rs.context }
      let rs := rs.declare name
      let rs := rs.define name
      match super_class with
      | some (supName, supHops) =>
        if supName.lexeme = name.lexeme then
          -- early return: the pushed Class context is not popped
          some (.Class name (some (supName, supHops)) methods,
                rs.add_err (.ClassCantInheritFromItself supName))
        else do
          let (h, rs) := rs.resolve_local supName.lexeme
          let rs := rs.begin_scope.define_super
          let rs := rs.begin_scope.define_this
          let (methods1, rs) ← resolveMethods fuel rs methods
          let rs := rs.end_scope
          let rs := rs.end_scope
          some (.Class name (some (supName, h)) methods1,
                { rs with context := rs.context.tail })
      | none => do
        let rs := rs.begin_scope.define_this
        let (methods1, rs) ← resolveMethods fuel rs methods
        let rs := rs.end_scope
        some (.Class name none methods1, { rs with context := rs.context.tail })

/-- `Resolver::resolve_stmts`. -/
def resolveSList : Nat → RState → List Stmt → Option (List Stmt × RState)
  | 0, _, _ => none
  | _fuel + 1, rs, [] => some ([], rs)
  | fuel + 1, rs, s :: ss => do
    let (s1, rs) ← resolveS fuel rs s
    let (ss1, rs) ← resolveSList fuel rs ss
    some (s1 :: ss1, rs)

/-- `Resolver::resolve_function`: fresh scope, declare+define the
parameters, resolve the body, pop the scope. -/
def resolveFunction : Nat → RState → FunctionDecl → Option (FunctionDecl × RState)
  | 0, _, _ => none
  | fuel + 1, rs, decl => do
    let rs := rs.begin_scope
    let rs := decl.params.foldl (fun rs p => (rs.declare p).define p) rs
    let (body1, rs) ← resolveSList fuel rs decl.body
    some (FunctionDecl.mk decl.name decl.params body1, rs.end_scope)

/-- The method loop of `Resolver::visit_class`: push `Method` (or
`InitializerMethod` for `init`), resolve the function, pop. -/
def resolveMethods : Nat → RState → List FunctionDecl → Option (List FunctionDecl × RState)
  | 0, _, _ => none
  | _fuel + 1, rs, [] => some ([], rs)
  | fuel + 1, rs, m :: ms => do
    let method_context := if m.name.lexeme ≠ "init" then Context.Method else Context.InitializerMethod
    let rs := { rs with context := method_context :: rs.context }
    let (m1, rs) ← resolveFunction fuel rs m
    let rs := { rs with context := rs.context.tail }
    let (ms1, rs) ← resolveMethods fuel rs ms
    some (m1 :: ms1, rs)

end

/-- `resolver::ResolutionResult`. -/
structure ResolutionResult where
  warnings : Option (List Warning)
  errors : Option (List ResolutionError)
  deriving DecidableEq, Repr

/-- `Resolver::resolve` on a fresh resolver (`Resolver::new()` followed by
`resolve`): resolve the statements and drain warnings and errors. -/
def resolveProgram (fuel : Nat) (stmts : List Stmt) :
    Option (List Stmt × ResolutionResult) := do
  let (stmts1, rs) ← resolveSList fuel RState.fresh stmts
  some (stmts1,
    { warnings := if rs.warnings.length > 0 then some rs.warnings else none,
      errors := if rs.errors.length > 0 then some rs.errors else none })

/-! ### Runtime values and evaluator (src/lib.rs, src/interpreter/)

`Gc<RefCell<Environment>>`, `Gc<RefCell<Class>>` and
`Gc<RefCell<Instance>>` handles become `Nat` indices into explicit heaps
inside the interpreter state; `HashMap`s become association lists.  The
only `Callable` implementation in the crate is `Function`, so
`CallableWrapper` is flattened to its declaration, initializer flag and
closure handle. -/

/-- `RuntimeError` (src/lib.rs). -/
inductive RuntimeError where
  | UnknownUnaryExpression (t : Token)
  | UnknownBinaryExpression (t : Token)
  | UnaryMinusExpectsNumber (t : Token)
  | BinaryOperatorExpectsNumbers (t : Token)
  | BinaryPlusExpectsTwoNumbersOrTwoStrings (t : Token)
  | DivisionByZero (t : Token)
  | UndefinedVariable (t : Token)
  | NonCallableCalled (t : Token)
  | CallableArityMismatch (right_paren : Token) (expected found : Nat)
  | OnlyInstancesHaveProperties (t : Token)
  | UndefinedProperty (t : Token)
  | SuperClassMustBeAClass (t : Token)
  deriving Repr

/-- `CallableWrapper` with its `Function` callable flattened
(`Function { decl, is_initializer }` plus the wrapper's closure handle). -/
structure CallableWrapper where
  decl : FunctionDecl
  is_initializer : Bool
  closure : Option Nat

/-- `RuntimeValue` (src/lib.rs); classes and instances by heap handle. -/
inductive RuntimeValue where
  | Nil
  | Bool (b : Bool)
  | Number (n : Rat)
  | String (s : String)
  | Callable (c : CallableWrapper)
  | Class (id : Nat)
  | Instance (id : Nat)

/-- `statement::StmtEffect`. -/
inductive StmtEffect where
  | Return (v : RuntimeValue)
  | Break

/-- `interpreter::env::Environment`. -/
structure EnvData where
  parent : Option Nat
  bindings : List (String × RuntimeValue)

/-- `Class` (src/lib.rs). -/
structure ClassData where
  name : String
  super_class : Option Nat
  methods : List (String × CallableWrapper)

/-- `Instance` (src/lib.rs). -/
structure InstanceData where
  classRef : Nat
  fields : List (String × RuntimeValue)

/-- The interpreter state: the `Interpreter`'s two environment handles plus
the heaps behind the `Gc` pointers and the stdout stream written by
`print`. -/
structure IState where
  envs : Array EnvData
  classes : Array ClassData
  instances : Array InstanceData
  output : List String
  globals : Nat
  current : Nat

/-- `Interpreter::new`: a single root environment serving as globals and
current. -/
def IState.initial : IState :=
  { envs := #[⟨none, []⟩], classes := #[], instances := #[],
    output := [], globals := 0, current := 0 }

/-- Result of evaluating/executing: success and runtime errors carry the
updated state, `oof` is fuel exhaustion, `bug` a source `panic!`. -/
inductive IRes (α : Type) where
  | ok (a : α) (st : IState)
  | err (e : RuntimeError) (st : IState)
  | oof
  | bug

/-- Sequencing of interpreter results. -/
def ibind {α β : Type} (r : IRes α) (k : α → IState → IRes β) : IRes β :=
  match r with
  | .ok a st => k a st
  | .err e st => .err e st
  | .oof => .oof
  | .bug => .bug

/-- `HashMap::insert` on a string-keyed association list. -/
def alist_insert {α : Type} (l : List (String × α)) (k : String) (v : α) :
    List (String × α) :=
  if l.any (fun p => p.1 = k) then
    l.map (fun p => if p.1 = k then (k, v) else p)
  else (k, v) :: l

/-- `Environment::get`. -/
def env_get (st : IState) (id : Nat) (name : String) : Option RuntimeValue :=
  match st.envs[id]? with
  | some e => (e.bindings.find? (fun p => p.1 = name)).map (·.2)
  | none => none

/-- `Environment::define`: unconditional insertion in the given scope. -/
def env_define (st : IState) (id : Nat) (name : String) (v : RuntimeValue) : IState :=
  match st.envs[id]? with
  | some e =>
    let e1 := { e with bindings := alist_insert e.bindings name v }
    { st with envs := st.envs.setD id e1 }
  | none => st

/-- `Environment::assign`: assign only if the key exists. -/
def env_assign (st : IState) (id : Nat) (name : String) (v : RuntimeValue) :
    Bool × IState :=
  match st.envs[id]? with
  | some e =>
    if e.bindings.any (fun p => p.1 = name) then
      let e1 := { e with bindings := e.bindings.map (fun p => if p.1 = name then (name, v) else p) }
      (true, { st with envs := st.envs.setD id e1 })
    else (false, st)
  | none => (false, st)

/-- `Environment::get_at`: walk `hops` parents, then read. -/
def env_get_at (st : IState) (id : Nat) (name : String) : Nat → Option RuntimeValue
  | 0 => env_get st id name
  | hops + 1 =>
    match st.envs[id]? with
    | some e =>
      match e.parent with
      | some p => env_get_at st p name hops
      | none => none
    | none => none

/-- `Environment::assign_at`: walk `hops` parents, then assign. -/
def env_assign_at (st : IState) (id : Nat) (name : String) (v : RuntimeValue) :
    Nat → Bool × IState
  | 0 => env_assign st id name v
  | hops + 1 =>
    match st.envs[id]? with
    | some e =>
      match e.parent with
      | some p => env_assign_at st p name v hops
      | none => (false, st)
    | none => (false, st)

/-- `is_truthy` (src/lib.rs). -/
def is_truthy : RuntimeValue → Bool
  | .Nil => false
  | .Bool b => b
  | _ => true

/-- `are_equal` (src/interpreter/eval.rs): structural equality on nil,
booleans, numbers and strings; anything else compares unequal. -/
def are_equal : RuntimeValue → RuntimeValue → Bool
  | .Nil, .Nil => true
  | .Bool x, .Bool y => x == y
  | .Number x, .Number y => x == y
  | .String x, .String y => x == y
  | _, _ => false

/-- `Interpreter::look_up_var`. -/
def look_up_var (st : IState) (name : Token) (hops : Option Nat) :
    Except RuntimeError RuntimeValue :=
  let value := match hops with
    | some h => env_get_at st st.current name.lexeme h
    | none => env_get st st.globals name.lexeme
  match value with
  | some v => .ok v
  | none => .error (.UndefinedVariable name)

/-- `Interpreter::assign_var`. -/
def assign_var (st : IState) (name : Token) (v : RuntimeValue) (hops : Option Nat) :
    Bool × IState :=
  match hops with
  | some h => env_assign_at st st.current name.lexeme v h
  | none => env_assign st st.globals name.lexeme v

/-- The `Display` form of a runtime value (src/lib.rs); the host's default
double formatting is abstracted to `Rat`'s. -/
def display (st : IState) : RuntimeValue → String
  | .Nil => "nil"
  | .Bool b => if b then "true" else "false"
  | .Number n => toString n
  | .String s => "\"" ++ s ++ "\""
  | .Callable c => "<fun " ++ c.decl.name.lexeme ++ ">"
  | .Class cid =>
    "<class " ++ (match st.classes[cid]? with | some c => c.name | none => "") ++ ">"
  | .Instance iid =>
    "<instance of class " ++
      (match st.instances[iid]? with
       | some i => match st.classes[i.classRef]? with | some c => c.name | none => ""
       | none => "") ++ ">"

/-- `Class::find_method`: own methods first, then recursively the
super-class.  Fuel guards against (unreachable) cyclic class chains;
a dangling handle also gives `none`. -/
def find_method (st : IState) (name : String) : Nat → Nat → Option (Option CallableWrapper)
  | 0, _ => none
  | fuel + 1, cid =>
    match st.classes[cid]? with
    | none => none
    | some cls =>
      match (cls.methods.find? (fun p => p.1 = name)).map (·.2) with
      | some m => some (some m)
      | none =>
        match cls.super_class with
        | some sup => find_method st name fuel sup
        | none => some none

/-- `bind_method` (src/lib.rs): fresh child of the method's closure with
`this` bound to the instance; `none` is the panic on a closure-less
callable. -/
def bind_method (st : IState) (w : CallableWrapper) (instId : Nat) :
    Option (CallableWrapper × IState) :=
  match w.closure with
  | none => none
  | some c =>
    let envId := st.envs.size
    let st := { st with envs := st.envs.push ⟨some c, [("this", .Instance instId)]⟩ }
    some ({ w with closure := some envId }, st)

/-- `Instance::get` (src/lib.rs): fields first, then the bound method;
`ok none` is a missing property. -/
def instance_get (fuel : Nat) (st : IState) (instId : Nat) (name : String) :
    IRes (Option RuntimeValue) :=
  match st.instances[instId]? with
  | none => .bug
  | some inst =>
    match (inst.fields.find? (fun p => p.1 = name)).map (·.2) with
    | some v => .ok (some v) st
    | none =>
      match find_method st name fuel inst.classRef with
      | none => .oof
      | some none => .ok none st
      | some (some m) =>
        match bind_method st m instId with
        | none => .bug
        | some (bw, st) => .ok (some (.Callable bw)) st

/-- `Instance::set` (src/lib.rs). -/
def instance_set (st : IState) (instId : Nat) (name : String) (v : RuntimeValue) : IState :=
  match st.instances[instId]? with
  | none => st
  | some inst =>
    let inst1 := { inst with fields := alist_insert inst.fields name v }
    { st with instances := st.instances.setD instId inst1 }

/-- The parameter-definition loop of `Function::call`: arguments are
walked by index into `params`; `none` is the out-of-bounds panic. -/
def define_params (st : IState) (envId : Nat) :
    List Token → List RuntimeValue → Option IState
  | _, [] => some st
  | [], _ :: _ => none
  | p :: ps, a :: rest => define_params (env_define st envId p.lexeme a) envId ps rest

/-- `eval_bin_num_operator` (src/interpreter/eval.rs). -/
def eval_bin_num_operator (st : IState) (left right : RuntimeValue)
    (f : Rat → Rat → RuntimeValue) (op : Token) : IRes RuntimeValue :=
  match left, right with
  | .Number a, .Number b => .ok (f a b) st
  | _, _ => .err (.BinaryOperatorExpectsNumbers op) st

mutual

/-- `expression::Visitor<EvalResult>` for `Interpreter`
(src/interpreter/eval.rs). -/
def evalExpr : Nat → IState → Expr → IRes RuntimeValue
  | 0, _, _ => .oof
  | fuel + 1, st, e =>
    match e with
    | .Literal l =>
      match l with
      | .Number n => .ok (.Number n) st
      | .String s => .ok (.String s) st
      | .True => .ok (.Bool true) st
      | .False => .ok (.Bool false) st
      | .Nil => .ok .Nil st
    | .Unary op right =>
      ibind (evalExpr fuel st right) fun v st =>
      match op.token_type with
      | .Minus =>
        match v with
        | .Number n => .ok (.Number (-n)) st
        | _ => .err (.UnaryMinusExpectsNumber op) st
      | .Bang => .ok (.Bool (is_truthy v == false)) st
      | _ => .err (.UnknownUnaryExpression op) st
    | .Binary left right op =>
      ibind (evalExpr fuel st left) fun lv st =>
      ibind (evalExpr fuel st right) fun rv st =>
      match op.token_type with
      | .EqualEqual => .ok (.Bool (are_equal lv rv)) st
      | .BangEqual => .ok (.Bool (are_equal lv rv == false)) st
      | .Less => eval_bin_num_operator st lv rv (fun a b => .Bool (a < b)) op
      | .LessEqual => eval_bin_num_operator st lv rv (fun a b => .Bool (a ≤ b)) op
      | .Greater => eval_bin_num_operator st lv rv (fun a b => .Bool (a > b)) op
      | .GreaterEqual => eval_bin_num_operator st lv rv (fun a b => .Bool (a ≥ b)) op
      | .Star => eval_bin_num_operator st lv rv (fun a b => .Number (a * b)) op
      | .Minus => eval_bin_num_operator st lv rv (fun a b => .Number (a - b)) op
      | .Slash =>
        match lv, rv with
        | .Number a, .Number b =>
          if b = 0 then .err (.DivisionByZero op) st
          else .ok (.Number (a / b)) st
        | _, _ => .err (.BinaryOperatorExpectsNumbers op) st
      | .Plus =>
        match lv, rv with
        | .Number a, .Number b => .ok (.Number (a + b)) st
        | .String a, .String b => .ok (.String (a ++ b)) st
        | _, _ => .err (.BinaryPlusExpectsTwoNumbersOrTwoStrings op) st
      | .Comma => .ok rv st
      | _ => .err (.UnknownBinaryExpression op) st
    | .Logical left right op =>
      ibind (evalExpr fuel st left) fun lv st =>
      match op.token_type with
      | .Or => if is_truthy lv then .ok lv st else evalExpr fuel st right
      | .And => if is_truthy lv == false then .ok lv st else evalExpr fuel st right
      | _ => .bug  -- panic!("expected logical operator")
    | .Grouping sub => evalExpr fuel st sub
    | .Variable name hops =>
      match look_up_var st name hops with
      | .ok v => .ok v st
      | .error e => .err e st
    | .This keyword hops =>
      match look_up_var st keyword hops with
      | .ok v => .ok v st
      | .error e => .err e st
    | .Assignment name hops value =>
      ibind (evalExpr fuel st value) fun v st =>
      let (var_exists, st) := assign_var st name v hops
      if var_exists then .ok v st
      else .err (.UndefinedVariable name) st
    | .Call right_paren callee args =>
      ibind (evalExpr fuel st callee) fun cv st =>
      match cv with
      | .Callable w =>
        if w.decl.params.length ≠ args.length then
          .err (.CallableArityMismatch right_paren w.decl.params.length args.length) st
        else
          ibind (evalArgs fuel st args) fun vals st =>
          functionCall fuel st w.decl w.is_initializer w.closure vals
      | .Class cid => classCall fuel st cid right_paren args
      | _ => .err (.NonCallableCalled right_paren) st
    | .Get name object =>
      ibind (evalExpr fuel st object) fun ov st =>
      match ov with
      | .Instance instId =>
        match instance_get fuel st instId name.lexeme with
        | .ok (some v) st => .ok v st
        | .ok none st => .err (.UndefinedProperty name) st
        | .err e st => .err e st
        | .oof => .oof
        | .bug => .bug
      | _ => .err (.OnlyInstancesHaveProperties name) st
    | .Set name object value =>
      ibind (evalExpr fuel st object) fun ov st =>
      match ov with
      | .Instance instId =>
        ibind (evalExpr fuel st value) fun v st =>
        .ok v (instance_set st instId name.lexeme v)
      | _ => .err (.OnlyInstancesHaveProperties name) st
    | .Super keyword method hops_to_super hops_to_this =>
      match look_up_var st keyword hops_to_super with
      | .error e => .err e st
      | .ok sv =>
        match sv with
        | .Class supId =>
          match look_up_var st thisToken hops_to_this with
          | .error e => .err e st
          | .ok iv =>
            match iv with
            | .Instance objId =>
              match find_method st method.lexeme fuel supId with
              | none => .oof
              | some none => .err (.UndefinedProperty method) st
              | some (some m) =>
                match bind_method st m objId with
                | none => .bug
                | some (bw, st) => .ok (.Callable bw) st
            | _ => .bug  -- panic!("'this' evaluated wrong")
        | _ => .bug  -- panic!("'super' evaluated wrong")

/-- The argument-evaluation loop of `visit_call` (left to right). -/
def evalArgs : Nat → IState → List Expr → IRes (List RuntimeValue)
  | 0, _, _ => .oof
  | _fuel + 1, st, [] => .ok [] st
  | fuel + 1, st, e :: es =>
    ibind (evalExpr fuel st e) fun v st =>
    ibind (evalArgs fuel st es) fun vs st =>
    .ok (v :: vs) st

/-- `statement::Visitor<ExecResult>` for `Interpreter`
(src/interpreter/mod.rs). -/
def execStmt : Nat → IState → Stmt → IRes (Option StmtEffect)
  | 0, _, _ => .oof
  | fuel + 1, st, s =>
    match s with
    | .Expression e =>
      ibind (evalExpr fuel st e) fun _ st => .ok none st
    | .Print e =>
      ibind (evalExpr fuel st e) fun v st =>
      .ok none { st with output := st.output ++ [display st v] }
    | .Var name initializer =>
      let r := match initializer with
        | none => IRes.ok RuntimeValue.Nil st
        | some init => evalExpr fuel st init
      ibind r fun v st =>
      .ok none (env_define st st.current name.lexeme v)
    | .Block statements =>
      let envId := st.envs.size
      let st := { st with envs := st.envs.push ⟨some st.current, []⟩ }
      execBlockIn fuel st statements envId
    | .If cond then_branch else_branch =>
      ibind (evalExpr fuel st cond) fun cv st =>
      if is_truthy cv then execStmt fuel st then_branch
      else
        match else_branch with
        | some stmt => execStmt fuel st stmt
        | none => .ok none st
    | .While cond body => whileLoop fuel st cond body
    | .Function decl =>
      let value := RuntimeValue.Callable ⟨decl, false, some st.current⟩
      .ok none (env_define st st.current decl.name.lexeme value)
    | .Return _keyword value =>
      let r := match value with
        | some e => evalExpr fuel st e
        | none => IRes.ok RuntimeValue.Nil st
      ibind r fun v st =>
      .ok (some (.Return v)) st
    | .Break _keyword => .ok (some .Break) st
    | .Class name super_class methods =>
      let supr : IRes (Option Nat) :=
        match super_class with
        | some (supName, supHops) =>
          ibind (evalExpr fuel st (.Variable supName supHops)) fun sv st =>
          match sv with
          | .Class cid => .ok (some cid) st
          | _ => .err (.SuperClassMustBeAClass supName) st
        | none => .ok none st
      ibind supr fun super_id st =>
      let st := env_define st st.current name.lexeme .Nil
      let (st, method_env) :=
        match super_id with
        | some cid =>
          let envId := st.envs.size
          let st := { st with envs := st.envs.push ⟨some st.current, [("super", .Class cid)]⟩ }
          ({ st with current := envId }, envId)
        | none => (st, st.current)
      let class_methods := methods.foldl
        (fun acc f =>
          alist_insert acc f.name.lexeme
            ⟨f, f.name.lexeme == "init", some method_env⟩)
        []
      match super_id with
      | some _ =>
        match st.envs[st.current]? with
        | some e =>
          match e.parent with
          | some prev =>
            let st := { st with current := prev }
            let cid := st.classes.size
            let st := { st with classes := st.classes.push ⟨name.lexeme, super_id, class_methods⟩ }
            let (_, st) := env_assign st st.current name.lexeme (.Class cid)
            .ok none st
          | none => .bug  -- expect("previous environment is non-null")
        | none => .bug
      | none =>
        let cid := st.classes.size
        let st := { st with classes := st.classes.push ⟨name.lexeme, super_id, class_methods⟩ }
        let (_, st) := env_assign st st.current name.lexeme (.Class cid)
        .ok none st

/-- `Interpreter::execute`: run statements in order, returning early on
any effect. -/
def execStmts : Nat → IState → List Stmt → IRes (Option StmtEffect)
  | 0, _, _ => .oof
  | _fuel + 1, st, [] => .ok none st
  | fuel + 1, st, s :: rest =>
    ibind (execStmt fuel st s) fun effect st =>
    match effect with
    | some .Break => .ok effect st
    | some (.Return _) => .ok effect st
    | none => execStmts fuel st rest

/-- `Interpreter::execute_block`: swap in the block environment, run, and
restore the previous environment on all exit paths. -/
def execBlockIn : Nat → IState → List Stmt → Nat → IRes (Option StmtEffect)
  | 0, _, _, _ => .oof
  | fuel + 1, st, stmts, envId =>
    let prev := st.current
    match execStmts fuel { st with current := envId } stmts with
    | .ok a st => .ok a { st with current := prev }
    | .err e st => .err e { st with current := prev }
    | .oof => .oof
    | .bug => .bug

/-- The `loop` body of `Interpreter::visit_while`: evaluate the condition,
then the body; `Break` ends the loop consumed, `Return` propagates. -/
def whileLoop : Nat → IState → Expr → Stmt → IRes (Option StmtEffect)
  | 0, _, _, _ => .oof
  | fuel + 1, st, cond, body =>
    ibind (evalExpr fuel st cond) fun cv st =>
    if is_truthy cv then
      ibind (execStmt fuel st body) fun effect st =>
      match effect with
      | some .Break => .ok none st
      | some (.Return v) => .ok (some (.Return v)) st
      | none => whileLoop fuel st cond body
    else .ok none st

/-- `Function::call` (src/lib.rs): child scope of the closure (or a fresh
root), bind parameters, run the body as a block, then interpret the
effect — an initializer always answers with `this` from its closure. -/
def functionCall : Nat → IState → FunctionDecl → Bool → Option Nat → List RuntimeValue →
    IRes RuntimeValue
  | 0, _, _, _, _, _ => .oof
  | fuel + 1, st, decl, is_init, closure, args =>
    let envId := st.envs.size
    let st := { st with envs := st.envs.push ⟨closure, []⟩ }
    match define_params st envId decl.params args with
    | none => .bug  -- params index out of bounds
    | some st =>
      ibind (execBlockIn fuel st decl.body envId) fun effect st =>
      match effect with
      | some .Break => .bug  -- panic!("break propagated to fuction")
      | some (.Return v) =>
        if is_init then
          match closure with
          | some cl =>
            match env_get st cl "this" with
            | some inst => .ok inst st
            | none => .bug  -- expect("initializer closure without 'this'")
          | none => .bug  -- panic!("initializer without closure")
        else .ok v st
      | none =>
        if is_init then
          match closure with
          | some cl =>
            match env_get st cl "this" with
            | some inst => .ok inst st
            | none => .bug
          | none => .bug
        else .ok .Nil st

/-- The `RuntimeValue::Class` arm of `visit_call`
(src/interpreter/eval.rs): construct the instance, run `init` bound to it
when present (checking arity), and answer with the fresh instance. -/
def classCall : Nat → IState → Nat → Token → List Expr → IRes RuntimeValue
  | 0, _, _, _, _ => .oof
  | fuel + 1, st, classId, right_paren, args =>
    let instId := st.instances.size
    let st := { st with instances := st.instances.push ⟨classId, []⟩ }
    match st.classes[classId]? with
    | none => .bug
    | some cls =>
      match (cls.methods.find? (fun p => p.1 = "init")).map (·.2) with
      | some initializer =>
        if initializer.decl.params.length ≠ args.length then
          .err (.CallableArityMismatch right_paren initializer.decl.params.length args.length) st
        else
          ibind (evalArgs fuel st args) fun vals st =>
          match bind_method st initializer instId with
          | none => .bug
          | some (init, st) =>
            ibind (functionCall fuel st init.decl init.is_initializer init.closure vals)
              fun _ st =>
            .ok (.Instance instId) st
      | none =>
        if args.length ≠ 0 then
          .err (.CallableArityMismatch right_paren 0 args.length) st
        else
          .ok (.Instance instId) st

end

/-- The literal-to-value mapping of `visit_literal`
(src/interpreter/eval.rs), as a standalone function. -/
def litValue : Lit → RuntimeValue
  | .Number n => .Number n
  | .String s => .String s
  | .True => .Bool true
  | .False => .Bool false
  | .Nil => .Nil

/-! ### Claims -/

/-- C2: the spec says every token carries 1-based line and column numbers,
but the scanner passes the raw 0-based `line_num`/`col` counters to
`Token::single_character` and `Token::two_character`, while identifier,
number and string tokens — and all scan diagnostics — get `+1`.  Scanning
`"("` yields a token at line 0, column 0; scanning `"x"` yields line 1,
column 1; the diagnostic for `"&"` is 1-based. -/
theorem scanner_operator_tokens_are_zero_based :
    scan "(" = .ok [{ token_type := .LeftParen, lexeme := "(", literal := none,
                      line := 0, column := 0 }] ∧
    scan "==" = .ok [{ token_type := .EqualEqual, lexeme := "==", literal := none,
                       line := 0, column := 0 }] ∧
    scan "x" = .ok [{ token_type := .Identifier, lexeme := "x", literal := none,
                      line := 1, column := 1 }] ∧
    scan "&" = .error (.TokenError [{ line := 1, column := 1,
                                      error := .UnexpectedCharacter }]) := by
  refine ⟨?_, ?_, ?_, ?_⟩ <;> rfl

/-- C8: logical operators short-circuit and return operand values: when
the left operand of `or` is truthy (resp. of `and` is falsy) the right
operand is never evaluated and the left value is returned unchanged along
with its state; otherwise the result is exactly the evaluation of the
right operand. -/
theorem logical_short_circuit (fuel : Nat) (st st1 : IState) (a b : Expr)
    (orTok andTok : Token) (v : RuntimeValue)
    (hor : orTok.token_type = .Or) (hand : andTok.token_type = .And)
    (ha : evalExpr fuel st a = .ok v st1) :
    (is_truthy v = true →
      evalExpr (fuel + 1) st (.Logical a b orTok) = .ok v st1 ∧
      evalExpr (fuel + 1) st (.Logical a b andTok) = evalExpr fuel st1 b) ∧
    (is_truthy v = false →
      evalExpr (fuel + 1) st (.Logical a b andTok) = .ok v st1 ∧
      evalExpr (fuel + 1) st (.Logical a b orTok) = evalExpr fuel st1 b) := by
  constructor <;> intro htr <;>
    constructor <;> simp [evalExpr, ibind, ha, hor, hand, htr]

/-- C8 witness: `true or nil` answers `true` without touching the right
operand; `true and nil` delegates to the right operand. -/
theorem logical_short_circuit_witness :
    evalExpr 2 IState.initial
        (.Logical (.Literal .True) (.Literal .Nil) ⟨.Or, "or", none, 1, 6⟩) =
      .ok (.Bool true) IState.initial ∧
    evalExpr 2 IState.initial
        (.Logical (.Literal .True) (.Literal .Nil) ⟨.And, "and", none, 1, 6⟩) =
      evalExpr 1 IState.initial (.Literal .Nil) := by
  have h := (logical_short_circuit 1 IState.initial IState.initial
    (.Literal .True) (.Literal .Nil) ⟨.Or, "or", none, 1, 6⟩ ⟨.And, "and", none, 1, 6⟩
    (.Bool true) rfl rfl rfl).1 rfl
  exact h

/-- C10: assignment to an undefined global is not atomic: the value
expression is fully evaluated first — its state effects persist — and only
then is `UndefinedVariable` raised, carrying the post-evaluation state. -/
theorem assignment_value_evaluated_before_undefined_error
    (fuel : Nat) (st st1 : IState) (name : Token) (value : Expr) (v : RuntimeValue)
    (hv : evalExpr fuel st value = .ok v st1)
    (hundef : env_get st1 st1.globals name.lexeme = none) :
    evalExpr (fuel + 1) st (.Assignment name none value) =
      .err (.UndefinedVariable name) st1 := by
  have hassign : env_assign st1 st1.globals name.lexeme v = (false, st1) := by
    unfold env_get at hundef
    unfold env_assign
    cases he : st1.envs[st1.globals]? with
    | none => rfl
    | some e =>
      rw [he] at hundef
      simp only [Option.map_eq_none', List.find?_eq_none] at hundef
      have : e.bindings.any (fun p => p.1 = name.lexeme) = false := by
        simp only [List.any_eq_false]
        intro p hp
        have := hundef p hp
        simpa using this
      simp [this]
  simp [evalExpr, ibind, hv, assign_var, hassign]

/-- C10 witness: with global `x` defined and `y` undefined, evaluating
`y = (x = 42)` performs the inner assignment (observable in the error
state) and then fails with `UndefinedVariable y`. -/
theorem assignment_value_evaluated_before_undefined_error_witness :
    evalExpr 3
      { envs := #[⟨none, [("x", .Number 1)]⟩], classes := #[], instances := #[],
        output := [], globals := 0, current := 0 }
      (.Assignment ⟨.Identifier, "y", none, 1, 1⟩ none
        (.Assignment ⟨.Identifier, "x", none, 1, 6⟩ none (.Literal (.Number 42)))) =
      .err (.UndefinedVariable ⟨.Identifier, "y", none, 1, 1⟩)
        { envs := #[⟨none, [("x", .Number 42)]⟩], classes := #[], instances := #[],
          output := [], globals := 0, current := 0 } := by
  have h := assignment_value_evaluated_before_undefined_error 2
    { envs := #[⟨none, [("x", .Number 1)]⟩], classes := #[], instances := #[],
      output := [], globals := 0, current := 0 }
    { envs := #[⟨none, [("x", .Number 42)]⟩], classes := #[], instances := #[],
      output := [], globals := 0, current := 0 }
    ⟨.Identifier, "y", none, 1, 1⟩
    (.Assignment ⟨.Identifier, "x", none, 1, 6⟩ none (.Literal (.Number 42)))
    (.Number 42) rfl rfl
  exact h

/-- Helper for C7: the while loop never answers with a `Break` effect —
`Break` from the body is consumed by the loop itself. -/
theorem whileLoop_never_breaks (fuel : Nat) :
    ∀ (st : IState) (cond : Expr) (body : Stmt) (eff : Option StmtEffect) (st' : IState),
      whileLoop fuel st cond body = .ok eff st' →
      eff = none ∨ ∃ v, eff = some (.Return v) := by
  induction fuel with
  | zero => intro st cond body eff st' h; simp [whileLoop] at h
  | succ f ih =>
    intro st cond body eff st' h
    rw [whileLoop] at h
    cases hc : evalExpr f st cond with
    | ok cv st1 =>
      rw [hc] at h
      simp only [ibind] at h
      by_cases ht : is_truthy cv
      · rw [if_pos ht] at h
        cases hb : execStmt f st1 body with
        | ok effb st2 =>
          rw [hb] at h
          simp only [ibind] at h
          cases effb with
          | none => exact ih st2 cond body eff st' h
          | some se =>
            cases se with
            | Break => cases h; exact .inl rfl
            | Return v => cases h; exact .inr ⟨v, rfl⟩
        | err e st2 => rw [hb] at h; simp [ibind] at h
        | oof => rw [hb] at h; simp [ibind] at h
        | bug => rw [hb] at h; simp [ibind] at h
      · rw [if_neg ht] at h
        cases h
        exact .inl rfl
    | err e st1 => rw [hc] at h; simp [ibind] at h
    | oof => rw [hc] at h; simp [ibind] at h
    | bug => rw [hc] at h; simp [ibind] at h

/-- C7: a `While` statement evaluates the condition before the body each
iteration; a `Break` effect from the body ends the loop and is consumed —
executing a `While` never yields a `Break` effect to the surrounding
statement — while a `Return` effect from the body propagates out. -/
theorem while_consumes_break_and_propagates_return
    (fuel : Nat) (st st1 st2 : IState) (cond : Expr) (body : Stmt) (cv : RuntimeValue) :
    (∀ (f : Nat) (eff : Option StmtEffect) (st' : IState),
       execStmt f st (.While cond body) = .ok eff st' →
       eff = none ∨ ∃ v, eff = some (.Return v)) ∧
    (evalExpr fuel st cond = .ok cv st1 → is_truthy cv = true →
      (execStmt fuel st1 body = .ok (some .Break) st2 →
        execStmt (fuel + 2) st (.While cond body) = .ok none st2) ∧
      (∀ v, execStmt fuel st1 body = .ok (some (.Return v)) st2 →
        execStmt (fuel + 2) st (.While cond body) = .ok (some (.Return v)) st2)) := by
  constructor
  · intro f eff st' h
    cases f with
    | zero => simp [execStmt] at h
    | succ g =>
      rw [execStmt] at h
      exact whileLoop_never_breaks g st cond body eff st' h
  · intro hc ht
    constructor
    · intro hb
      show whileLoop (fuel + 1) st cond body = .ok none st2
      rw [whileLoop, hc]
      simp [ibind, ht, hb]
    · intro v hb
      show whileLoop (fuel + 1) st cond body = .ok (some (.Return v)) st2
      rw [whileLoop, hc]
      simp [ibind, ht, hb]

/-- C7 witness: `while (true) break;` terminates with no effect;
`while (true) return;` yields the `Return nil` effect. -/
theorem while_consumes_break_and_propagates_return_witness :
    execStmt 4 IState.initial
        (.While (.Literal .True) (.Break ⟨.Break, "break", none, 1, 14⟩)) =
      .ok none IState.initial ∧
    execStmt 4 IState.initial
        (.While (.Literal .True) (.Return ⟨.Return, "return", none, 1, 14⟩ none)) =
      .ok (some (.Return .Nil)) IState.initial := by
  constructor
  · exact ((while_consumes_break_and_propagates_return 2 IState.initial IState.initial
      IState.initial (.Literal .True) (.Break ⟨.Break, "break", none, 1, 14⟩)
      (.Bool true)).2 rfl rfl).1 rfl
  · exact ((while_consumes_break_and_propagates_return 2 IState.initial IState.initial
      IState.initial (.Literal .True) (.Return ⟨.Return, "return", none, 1, 14⟩ none)
      (.Bool true)).2 rfl rfl).2 .Nil rfl

/-- Helper: evaluating a literal yields its runtime value and leaves the
state unchanged (for any positive fuel). -/
theorem evalExpr_literal (fuel : Nat) (st : IState) (l : Lit) (h : 0 < fuel) :
    evalExpr fuel st (.Literal l) = .ok (litValue l) st := by
  cases fuel with
  | zero => omega
  | succ f => cases l <;> rfl

/-- C9: `VariableAlreadyDeclared` applies only inside local scopes.  With
no scope on the stack, `declare` and `define` are no-ops (so a program of
two global `var` declarations of the same name resolves with no error and
no warning), while with an open scope already holding the name `declare`
errors; at runtime `Environment::define` inserts unconditionally, so the
second global definition silently overwrites the first binding. -/
theorem global_redeclaration_unchecked_and_overwrites
    (rs : RState) (sc : RScope) (scs : List RScope)
    (n n1 n2 : Token) (v1 v2 : Lit) (fuel : Nat) :
    (rs.scopes = [] → rs.declare n = rs ∧ rs.define n = rs) ∧
    (rs.scopes = sc :: scs → (rscope_find sc n.lexeme).isSome →
      rs.declare n = rs.add_err (.VariableAlreadyDeclared n)) ∧
    (resolveProgram (fuel + 3) [.Var n1 none, .Var n2 none] =
      some ([.Var n1 none, .Var n2 none], ⟨none, none⟩)) ∧
    (n1.lexeme = n2.lexeme →
      execStmts (fuel + 4) IState.initial
          [.Var n1 (some (.Literal v1)), .Var n2 (some (.Literal v2))] =
        .ok none { envs := #[⟨none, [(n2.lexeme, litValue v2)]⟩], classes := #[],
                   instances := #[], output := [], globals := 0, current := 0 } ∧
      env_get { envs := #[⟨none, [(n2.lexeme, litValue v2)]⟩], classes := #[],
                instances := #[], output := [], globals := 0, current := 0 }
        0 n2.lexeme = some (litValue v2)) := by
  refine ⟨?_, ?_, ?_, ?_⟩
  · intro hsc
    constructor
    · unfold RState.declare; rw [hsc]
    · unfold RState.define; rw [hsc]
  · intro hsc hfind
    unfold RState.declare; rw [hsc]
    simp [hfind]
  · simp [resolveProgram, resolveSList, resolveS, RState.fresh, RState.declare,
          RState.define, ResolutionResult.mk.injEq]
  · intro hlex
    constructor
    · have h1 : evalExpr (fuel + 2) IState.initial (.Literal v1) =
          .ok (litValue v1) IState.initial := evalExpr_literal _ _ _ (by omega)
      have h2 : evalExpr (fuel + 1)
          (env_define IState.initial IState.initial.current n1.lexeme (litValue v1))
          (.Literal v2) = .ok (litValue v2)
          (env_define IState.initial IState.initial.current n1.lexeme (litValue v1)) :=
        evalExpr_literal _ _ _ (by omega)
      simp only [execStmts, execStmt, h1, h2, ibind]
      simp [env_define, IState.initial, alist_insert, hlex]
    · unfold env_get
      simp

/-- C9 witness: declaring `x` at the global scope is unchecked by the
resolver, and `var x = nil; var x = 1;` leaves the single global binding
`x = 1`. -/
theorem global_redeclaration_unchecked_and_overwrites_witness :
    RState.fresh.declare ⟨.Identifier, "x", none, 1, 5⟩ = RState.fresh ∧
    execStmts 4 IState.initial
        [.Var ⟨.Identifier, "x", none, 1, 5⟩ (some (.Literal .Nil)),
         .Var ⟨.Identifier, "x", none, 1, 5⟩ (some (.Literal (.Number 1)))] =
      .ok none { envs := #[⟨none, [("x", .Number 1)]⟩], classes := #[], instances := #[],
                 output := [], globals := 0, current := 0 } := by
  have h := global_redeclaration_unchecked_and_overwrites RState.fresh [] []
    ⟨.Identifier, "x", none, 1, 5⟩ ⟨.Identifier, "x", none, 1, 5⟩
    ⟨.Identifier, "x", none, 1, 5⟩ .Nil (.Number 1) 0
  exact ⟨(h.1 rfl).1, (h.2.2.2 rfl).1⟩

/-- C4: after parsing a left-hand side at assignment level, when an `=`
token follows the parser parses the right side and re-interprets the
already-parsed left side as an assignment target: a `Variable` yields an
`Assignment` node, a `Get` yields a `Set` node, and every other expression
shape reports `InvalidAssignment`. -/
theorem assignment_target_reinterpretation
    (fuel : Nat) (ts rest rest' : List Token) (left rhs : Expr) (eq : Token)
    (hlo : parse_logic_or fuel ts = .ok left (eq :: rest))
    (heq : eq.token_type = .Equal)
    (hrhs : parse_assignment fuel rest = .ok rhs rest') :
    (∀ name hops, left = .Variable name hops →
      parse_assignment (fuel + 1) ts = .ok (.Assignment name none rhs) rest') ∧
    (∀ name object, left = .Get name object →
      parse_assignment (fuel + 1) ts = .ok (.Set name object rhs) rest') ∧
    ((∀ name hops, left ≠ .Variable name hops) →
     (∀ name object, left ≠ .Get name object) →
      parse_assignment (fuel + 1) ts =
        .err { error_type := .InvalidAssignment, token := some eq } rest') := by
  refine ⟨?_, ?_, ?_⟩
  · rintro name hops rfl
    simp [parse_assignment, pbind, hlo, heq, hrhs, as_assign_target]
  · rintro name object rfl
    simp [parse_assignment, pbind, hlo, heq, hrhs, as_assign_target]
  · intro hv hg
    have hats : as_assign_target left = none := by
      cases left <;>
        first
        | rfl
        | (exact absurd rfl (hv _ _))
        | (exact absurd rfl (hg _ _))
    simp [parse_assignment, pbind, hlo, heq, hrhs, hats]

/-- C4 witness: `x = 1` parses to an `Assignment`, `a.b = 1` to a `Set`,
and `1 = 2` is an `InvalidAssignment` error. -/
theorem assignment_target_reinterpretation_witness :
    parse_assignment 11 [⟨.Identifier, "x", none, 1, 1⟩, ⟨.Equal, "=", none, 1, 3⟩,
        ⟨.Number, "1", some (.Number 1), 1, 5⟩] =
      .ok (.Assignment ⟨.Identifier, "x", none, 1, 1⟩ none (.Literal (.Number 1))) [] ∧
    parse_assignment 11 [⟨.Identifier, "a", none, 1, 1⟩, ⟨.Dot, ".", none, 1, 2⟩,
        ⟨.Identifier, "b", none, 1, 3⟩, ⟨.Equal, "=", none, 1, 5⟩,
        ⟨.Number, "1", some (.Number 1), 1, 7⟩] =
      .ok (.Set ⟨.Identifier, "b", none, 1, 3⟩
            (.Variable ⟨.Identifier, "a", none, 1, 1⟩ none) (.Literal (.Number 1))) [] ∧
    parse_assignment 11 [⟨.Number, "1", some (.Number 1), 1, 1⟩, ⟨.Equal, "=", none, 1, 3⟩,
        ⟨.Number, "2", some (.Number 2), 1, 5⟩] =
      .err { error_type := .InvalidAssignment, token := some ⟨.Equal, "=", none, 1, 3⟩ } [] := by
  refine ⟨?_, ?_, ?_⟩
  · exact (assignment_target_reinterpretation 10
      [⟨.Identifier, "x", none, 1, 1⟩, ⟨.Equal, "=", none, 1, 3⟩,
       ⟨.Number, "1", some (.Number 1), 1, 5⟩]
      [⟨.Number, "1", some (.Number 1), 1, 5⟩] []
      (.Variable ⟨.Identifier, "x", none, 1, 1⟩ none) (.Literal (.Number 1))
      ⟨.Equal, "=", none, 1, 3⟩ rfl rfl rfl).1 _ _ rfl
  · exact (assignment_target_reinterpretation 10
      [⟨.Identifier, "a", none, 1, 1⟩, ⟨.Dot, ".", none, 1, 2⟩,
       ⟨.Identifier, "b", none, 1, 3⟩, ⟨.Equal, "=", none, 1, 5⟩,
       ⟨.Number, "1", some (.Number 1), 1, 7⟩]
      [⟨.Number, "1", some (.Number 1), 1, 7⟩] []
      (.Get ⟨.Identifier, "b", none, 1, 3⟩ (.Variable ⟨.Identifier, "a", none, 1, 1⟩ none))
      (.Literal (.Number 1)) ⟨.Equal, "=", none, 1, 5⟩ rfl rfl rfl).2.1 _ _ rfl
  · exact (assignment_target_reinterpretation 10
      [⟨.Number, "1", some (.Number 1), 1, 1⟩, ⟨.Equal, "=", none, 1, 3⟩,
       ⟨.Number, "2", some (.Number 2), 1, 5⟩]
      [⟨.Number, "2", some (.Number 2), 1, 5⟩] []
      (.Literal (.Number 1)) (.Literal (.Number 2))
      ⟨.Equal, "=", none, 1, 3⟩ rfl rfl rfl).2.2
      (fun _ _ h => nomatch h) (fun _ _ h => nomatch h)

/-- C1: the parser accepts class declarations of the shape
`class IDENT ( "<" IDENT )? "{" function* "}"`: the method loop stops at
`}` and chains `parse_function` results, and the declaration dispatch
returns a `Class` statement carrying the name, the optional super-class
reference and the parsed methods, rather than a parse error. -/
theorem parser_accepts_class_declarations
    (fuel : Nat) (cls name less sup lb rb t : Token)
    (ts ts2 rest2 restT : List Token) (m : FunctionDecl) (ms : List FunctionDecl) :
    (t.token_type = .RightBrace →
      parse_class_methods (fuel + 1) (t :: restT) = .ok [] (t :: restT)) ∧
    (t.token_type ≠ .RightBrace →
      parse_function fuel (t :: restT) = .ok m ts2 →
      parse_class_methods (fuel + 1) (t :: restT) =
        pbind (parse_class_methods fuel ts2) (fun ms2 ts3 => .ok (m :: ms2) ts3)) ∧
    (cls.token_type = .Class → name.token_type = .Identifier → lb.token_type = .LeftBrace →
      parse_class_methods fuel ts = .ok ms (rb :: rest2) → rb.token_type = .RightBrace →
      parse_declaration (fuel + 2) (cls :: name :: lb :: ts) =
        .ok (.Class name none ms) rest2) ∧
    (cls.token_type = .Class → name.token_type = .Identifier →
      less.token_type = .Less → sup.token_type = .Identifier → lb.token_type = .LeftBrace →
      parse_class_methods fuel ts = .ok ms (rb :: rest2) → rb.token_type = .RightBrace →
      parse_declaration (fuel + 2) (cls :: name :: less :: sup :: lb :: ts) =
        .ok (.Class name (some (sup, none)) ms) rest2) := by
  refine ⟨?_, ?_, ?_, ?_⟩
  · intro hrb
    simp [parse_class_methods, hrb]
  · intro hrb hf
    simp [parse_class_methods, hrb, hf, pbind]
  · intro hcls hname hlb hms hrb
    cases ts with
    | nil => simp [parse_declaration, parse_class_decl, consume_token, pbind,
        hcls, hname, hlb, hms, hrb]
    | cons a as => simp [parse_declaration, parse_class_decl, consume_token, pbind,
        hcls, hname, hlb, hms, hrb]
  · intro hcls hname hless hsup hlb hms hrb
    simp [parse_declaration, parse_class_decl, consume_token, pbind,
      hcls, hname, hless, hsup, hlb, hms, hrb]

/-- C1 witness: `class A { f ( ) { } }` and `class A < B { }` both parse
into the expected `Class` statements. -/
theorem parser_accepts_class_declarations_witness :
    parse_declaration 12
        [⟨.Class, "class", none, 1, 1⟩, ⟨.Identifier, "A", none, 1, 7⟩,
         ⟨.LeftBrace, "\x7b", none, 1, 9⟩,
         ⟨.Identifier, "f", none, 1, 11⟩, ⟨.LeftParen, "(", none, 1, 12⟩,
         ⟨.RightParen, ")", none, 1, 13⟩, ⟨.LeftBrace, "\x7b", none, 1, 15⟩,
         ⟨.RightBrace, "\x7d", none, 1, 16⟩, ⟨.RightBrace, "\x7d", none, 1, 18⟩] =
      .ok (.Class ⟨.Identifier, "A", none, 1, 7⟩ none
            [.mk ⟨.Identifier, "f", none, 1, 11⟩ [] []]) [] ∧
    parse_declaration 12
        [⟨.Class, "class", none, 1, 1⟩, ⟨.Identifier, "A", none, 1, 7⟩,
         ⟨.Less, "<", none, 1, 9⟩, ⟨.Identifier, "B", none, 1, 11⟩,
         ⟨.LeftBrace, "\x7b", none, 1, 13⟩, ⟨.RightBrace, "\x7d", none, 1, 14⟩] =
      .ok (.Class ⟨.Identifier, "A", none, 1, 7⟩
            (some (⟨.Identifier, "B", none, 1, 11⟩, none)) []) [] := by
  constructor
  · exact (parser_accepts_class_declarations 10
      ⟨.Class, "class", none, 1, 1⟩ ⟨.Identifier, "A", none, 1, 7⟩
      ⟨.Class, "class", none, 1, 1⟩ ⟨.Class, "class", none, 1, 1⟩
      ⟨.LeftBrace, "\x7b", none, 1, 9⟩ ⟨.RightBrace, "\x7d", none, 1, 18⟩
      ⟨.Class, "class", none, 1, 1⟩
      [⟨.Identifier, "f", none, 1, 11⟩, ⟨.LeftParen, "(", none, 1, 12⟩,
       ⟨.RightParen, ")", none, 1, 13⟩, ⟨.LeftBrace, "\x7b", none, 1, 15⟩,
       ⟨.RightBrace, "\x7d", none, 1, 16⟩, ⟨.RightBrace, "\x7d", none, 1, 18⟩]
      [] [] [] (.mk ⟨.Identifier, "f", none, 1, 11⟩ [] [])
      [.mk ⟨.Identifier, "f", none, 1, 11⟩ [] []]).2.2.1 rfl rfl rfl rfl rfl
  · exact (parser_accepts_class_declarations 10
      ⟨.Class, "class", none, 1, 1⟩ ⟨.Identifier, "A", none, 1, 7⟩
      ⟨.Less, "<", none, 1, 9⟩ ⟨.Identifier, "B", none, 1, 11⟩
      ⟨.LeftBrace, "\x7b", none, 1, 13⟩ ⟨.RightBrace, "\x7d", none, 1, 14⟩
      ⟨.Class, "class", none, 1, 1⟩
      [⟨.RightBrace, "\x7d", none, 1, 14⟩] [] [] []
      (.mk ⟨.Identifier, "f", none, 1, 11⟩ [] [])
      []).2.2.2 rfl rfl rfl rfl rfl rfl rfl

/-- C6 counterexample: parsing `for (;;) print 1;` yields a bare `While`
statement (with the condition defaulted to `true`), not a
`Block{ init, While{...} }` — when the initializer is omitted the parser
emits no enclosing `Block`, so the claimed shape does not hold for every
`for` statement. -/
theorem for_desugar_counterexample :
    parse 30 [⟨.For, "for", none, 1, 1⟩, ⟨.LeftParen, "(", none, 1, 5⟩,
        ⟨.Semicolon, ";", none, 1, 6⟩, ⟨.Semicolon, ";", none, 1, 7⟩,
        ⟨.RightParen, ")", none, 1, 8⟩, ⟨.Print, "print", none, 1, 10⟩,
        ⟨.Number, "1", some (.Number 1), 1, 16⟩, ⟨.Semicolon, ";", none, 1, 17⟩] =
      .ok [.While (.Literal .True) (.Print (.Literal (.Number 1)))] ∧
    (Stmt.While (.Literal .True) (.Print (.Literal (.Number 1)))).isBlock = false := by
  exact ⟨rfl, rfl⟩

/-- C6 (amended): every `for` statement is desugared by the parser —
before resolution, and the statement type has no `For` variant at all —
into the while form `desugar_for`: with initializer and increment present
the result is `Block{ init, While{ cond, Block{ body, Expr(inc) } } }`;
an omitted increment leaves the body unwrapped, an omitted initializer
omits the outer `Block`, and an omitted condition becomes the literal
`true`. -/
theorem for_desugars_to_while
    (fuel : Nat) (forTok lp semi rp : Token) (ts ts1 ts2 ts3 ts4 rest rest0 : List Token)
    (oinit : Option Stmt) (ocond oinc : Option Expr) (body bodyS : Stmt)
    (i : Stmt) (n : Expr) :
    (forTok.token_type = .For →
      parse_for_init fuel lp ts = .ok oinit ts1 →
      parse_for_cond fuel lp ts1 = .ok ocond ts2 →
      consume_token ts2 .Semicolon = .ok semi ts3 →
      parse_for_inc fuel ts3 = .ok oinc ts4 →
      consume_token ts4 .RightParen = .ok rp rest0 →
      parse_statement fuel rest0 = .ok body rest →
      lp.token_type = .LeftParen →
      parse_for_statement (fuel + 1) (forTok :: lp :: ts) =
        .ok (desugar_for oinit ocond oinc body) rest) ∧
    (forTok.token_type = .For →
      parse_statement (fuel + 1) (forTok :: rest0) = parse_for_statement fuel (forTok :: rest0)) ∧
    (desugar_for (some i) ocond (some n) bodyS =
      .Block [i, .While (ocond.getD (.Literal .True)) (.Block [bodyS, .Expression n])]) ∧
    (desugar_for (some i) ocond none bodyS =
      .Block [i, .While (ocond.getD (.Literal .True)) bodyS]) ∧
    (desugar_for none ocond (some n) bodyS =
      .While (ocond.getD (.Literal .True)) (.Block [bodyS, .Expression n])) ∧
    (desugar_for none ocond none bodyS =
      .While (ocond.getD (.Literal .True)) bodyS) := by
  refine ⟨?_, ?_, ?_, ?_, ?_, ?_⟩
  · intro hfor hinit hcond hsemi hinc hrp hbody hlp
    have h1 : consume_token (forTok :: lp :: ts) .For = .ok forTok (lp :: ts) := by
      simp [consume_token, hfor]
    have h2 : consume_token (lp :: ts) .LeftParen = .ok lp ts := by
      simp [consume_token, hlp]
    simp [parse_for_statement, pbind, h1, h2, hinit, hcond, hsemi, hinc, hrp, hbody]
  · intro hfor
    simp [parse_statement, hfor]
  · cases ocond <;> rfl
  · cases ocond <;> rfl
  · cases ocond <;> rfl
  · cases ocond <;> rfl

/-- C6 witness: `for (var x = 1; 2; 3) print 4;` parses to the fully
wrapped `Block{ var, While{ 2, Block{ print, Expr(3) } } }`. -/
theorem for_desugars_to_while_witness :
    parse_for_statement 26
        [⟨.For, "for", none, 1, 1⟩, ⟨.LeftParen, "(", none, 1, 5⟩,
         ⟨.Var, "var", none, 1, 6⟩, ⟨.Identifier, "x", none, 1, 10⟩,
         ⟨.Equal, "=", none, 1, 12⟩, ⟨.Number, "1", some (.Number 1), 1, 14⟩,
         ⟨.Semicolon, ";", none, 1, 15⟩,
         ⟨.Number, "2", some (.Number 2), 1, 17⟩, ⟨.Semicolon, ";", none, 1, 18⟩,
         ⟨.Number, "3", some (.Number 3), 1, 20⟩, ⟨.RightParen, ")", none, 1, 21⟩,
         ⟨.Print, "print", none, 1, 23⟩, ⟨.Number, "4", some (.Number 4), 1, 29⟩,
         ⟨.Semicolon, ";", none, 1, 30⟩] =
      .ok (.Block [.Var ⟨.Identifier, "x", none, 1, 10⟩ (some (.Literal (.Number 1))),
            .While (.Literal (.Number 2))
              (.Block [.Print (.Literal (.Number 4)),
                       .Expression (.Literal (.Number 3))])]) [] := by
  have h := (for_desugars_to_while 25 ⟨.For, "for", none, 1, 1⟩
    ⟨.LeftParen, "(", none, 1, 5⟩ ⟨.Semicolon, ";", none, 1, 18⟩
    ⟨.RightParen, ")", none, 1, 21⟩
    [⟨.Var, "var", none, 1, 6⟩, ⟨.Identifier, "x", none, 1, 10⟩,
     ⟨.Equal, "=", none, 1, 12⟩, ⟨.Number, "1", some (.Number 1), 1, 14⟩,
     ⟨.Semicolon, ";", none, 1, 15⟩,
     ⟨.Number, "2", some (.Number 2), 1, 17⟩, ⟨.Semicolon, ";", none, 1, 18⟩,
     ⟨.Number, "3", some (.Number 3), 1, 20⟩, ⟨.RightParen, ")", none, 1, 21⟩,
     ⟨.Print, "print", none, 1, 23⟩, ⟨.Number, "4", some (.Number 4), 1, 29⟩,
     ⟨.Semicolon, ";", none, 1, 30⟩]
    [⟨.Number, "2", some (.Number 2), 1, 17⟩, ⟨.Semicolon, ";", none, 1, 18⟩,
     ⟨.Number, "3", some (.Number 3), 1, 20⟩, ⟨.RightParen, ")", none, 1, 21⟩,
     ⟨.Print, "print", none, 1, 23⟩, ⟨.Number, "4", some (.Number 4), 1, 29⟩,
     ⟨.Semicolon, ";", none, 1, 30⟩]
    [⟨.Semicolon, ";", none, 1, 18⟩,
     ⟨.Number, "3", some (.Number 3), 1, 20⟩, ⟨.RightParen, ")", none, 1, 21⟩,
     ⟨.Print, "print", none, 1, 23⟩, ⟨.Number, "4", some (.Number 4), 1, 29⟩,
     ⟨.Semicolon, ";", none, 1, 30⟩]
    [⟨.Number, "3", some (.Number 3), 1, 20⟩, ⟨.RightParen, ")", none, 1, 21⟩,
     ⟨.Print, "print", none, 1, 23⟩, ⟨.Number, "4", some (.Number 4), 1, 29⟩,
     ⟨.Semicolon, ";", none, 1, 30⟩]
    [⟨.RightParen, ")", none, 1, 21⟩,
     ⟨.Print, "print", none, 1, 23⟩, ⟨.Number, "4", some (.Number 4), 1, 29⟩,
     ⟨.Semicolon, ";", none, 1, 30⟩]
    []
    [⟨.Print, "print", none, 1, 23⟩, ⟨.Number, "4", some (.Number 4), 1, 29⟩,
     ⟨.Semicolon, ";", none, 1, 30⟩]
    (some (.Var ⟨.Identifier, "x", none, 1, 10⟩ (some (.Literal (.Number 1)))))
    (some (.Literal (.Number 2))) (some (.Literal (.Number 3)))
    (.Print (.Literal (.Number 4))) (.Print (.Literal (.Number 4)))
    (.Var ⟨.Identifier, "x", none, 1, 10⟩ (some (.Literal (.Number 1))))
    (.Literal (.Number 3))).1
    rfl rfl rfl rfl rfl rfl rfl rfl
  exact h

/-- C3: calling an initializer answers the constructed instance.
`Function::call` with the initializer flag answers the value of `this`
from the closure both on an explicit return-without-value (the `Return`
effect) and on implicit fall-through (no effect); a successful class call
always answers the instance freshly allocated at entry; and the resolver
rejects `return <expr>;` inside an initializer method with
`CantReturnValueFromAnInitializer` (leaving the value unresolved). -/
theorem initializer_returns_instance_and_rejects_value_return
    (fuel : Nat) (st st2 st3 : IState) (decl : FunctionDecl) (cl : Nat)
    (args : List RuntimeValue) (instVal v : RuntimeValue)
    (f2 : Nat) (stc stc' : IState) (cid : Nat) (rp : Token) (argEs : List Expr)
    (vc : RuntimeValue) (rs : RState) (kw : Token) (e : Expr) :
    (define_params { st with envs := st.envs.push ⟨some cl, []⟩ } st.envs.size
        decl.params args = some st2 →
      ((execBlockIn fuel st2 decl.body st.envs.size = .ok (some (.Return v)) st3 →
        env_get st3 cl "this" = some instVal →
        functionCall (fuel + 1) st decl true (some cl) args = .ok instVal st3) ∧
       (execBlockIn fuel st2 decl.body st.envs.size = .ok none st3 →
        env_get st3 cl "this" = some instVal →
        functionCall (fuel + 1) st decl true (some cl) args = .ok instVal st3))) ∧
    (classCall f2 stc cid rp argEs = .ok vc stc' → vc = .Instance stc.instances.size) ∧
    (nearest_function_context rs.context = some .InitializerMethod →
      resolveS (fuel + 1) rs (.Return kw (some e)) =
        some (.Return kw (some e), rs.add_err (.CantReturnValueFromAnInitializer kw))) := by
  refine ⟨?_, ?_, ?_⟩
  · intro hdp
    constructor
    · intro hex hthis
      simp [functionCall, ibind, hdp, hex, hthis]
    · intro hex hthis
      simp [functionCall, ibind, hdp, hex, hthis]
  · intro h
    cases f2 with
    | zero => simp [classCall] at h
    | succ g =>
      simp only [classCall] at h
      split at h
      · simp at h
      · rename_i cls hcls
        split at h
        · rename_i initializer hinit
          split at h
          · simp at h
          · cases ha : evalArgs g
                { stc with instances := stc.instances.push ⟨cid, []⟩ } argEs with
            | ok vals st1 =>
              rw [ha] at h
              simp only [ibind] at h
              split at h
              · simp at h
              · rename_i init st4 hbind
                cases hf : functionCall g st4 init.decl init.is_initializer
                    init.closure vals with
                | ok rv st5 =>
                  rw [hf] at h
                  simp only [ibind] at h
                  cases h
                  rfl
                | err e2 st5 => rw [hf] at h; simp [ibind] at h
                | oof => rw [hf] at h; simp [ibind] at h
                | bug => rw [hf] at h; simp [ibind] at h
            | err e2 st1 => rw [ha] at h; simp [ibind] at h
            | oof => rw [ha] at h; simp [ibind] at h
            | bug => rw [ha] at h; simp [ibind] at h
        · split at h
          · simp at h
          · cases h
            rfl
  · intro hctx
    simp [resolveS, hctx]

/-- C3 witness: an initializer with body `return;` answers the `this`
instance from its closure; calling a method-less class answers the fresh
instance; and `return nil;` under an `InitializerMethod` context errors. -/
theorem initializer_returns_instance_and_rejects_value_return_witness :
    functionCall 4
        { envs := #[⟨none, [("this", .Instance 0)]⟩], classes := #[],
          instances := #[⟨0, []⟩], output := [], globals := 0, current := 0 }
        (.mk ⟨.Identifier, "init", none, 1, 1⟩ []
          [.Return ⟨.Return, "return", none, 1, 10⟩ none])
        true (some 0) [] =
      .ok (.Instance 0)
        { envs := #[⟨none, [("this", .Instance 0)]⟩, ⟨some 0, []⟩], classes := #[],
          instances := #[⟨0, []⟩], output := [], globals := 0, current := 0 } ∧
    (RuntimeValue.Instance 0 = .Instance 0) ∧
    resolveS 3 ⟨[], [], [], [.InitializerMethod]⟩
        (.Return ⟨.Return, "return", none, 1, 20⟩ (some (.Literal .Nil))) =
      some (.Return ⟨.Return, "return", none, 1, 20⟩ (some (.Literal .Nil)),
        ⟨[], [.CantReturnValueFromAnInitializer ⟨.Return, "return", none, 1, 20⟩],
         [], [.InitializerMethod]⟩) := by
  refine ⟨?_, ?_, ?_⟩
  · exact ((initializer_returns_instance_and_rejects_value_return 3
      { envs := #[⟨none, [("this", .Instance 0)]⟩], classes := #[],
        instances := #[⟨0, []⟩], output := [], globals := 0, current := 0 }
      { envs := #[⟨none, [("this", .Instance 0)]⟩, ⟨some 0, []⟩], classes := #[],
        instances := #[⟨0, []⟩], output := [], globals := 0, current := 0 }
      { envs := #[⟨none, [("this", .Instance 0)]⟩, ⟨some 0, []⟩], classes := #[],
        instances := #[⟨0, []⟩], output := [], globals := 0, current := 0 }
      (.mk ⟨.Identifier, "init", none, 1, 1⟩ []
        [.Return ⟨.Return, "return", none, 1, 10⟩ none])
      0 [] (.Instance 0) .Nil 0
      IState.initial IState.initial 0 ⟨.RightParen, ")", none, 1, 1⟩ []
      .Nil RState.fresh ⟨.Return, "return", none, 1, 20⟩ (.Literal .Nil)).1
      rfl).1 rfl rfl
  · exact ((initializer_returns_instance_and_rejects_value_return 0
      IState.initial IState.initial IState.initial (.mk ⟨.Identifier, "x", none, 1, 1⟩ [] [])
      0 [] .Nil .Nil 3
      { envs := #[⟨none, []⟩], classes := #[⟨"A", none, []⟩], instances := #[],
        output := [], globals := 0, current := 0 }
      { envs := #[⟨none, []⟩], classes := #[⟨"A", none, []⟩], instances := #[⟨0, []⟩],
        output := [], globals := 0, current := 0 }
      0 ⟨.RightParen, ")", none, 1, 4⟩ [] (.Instance 0)
      RState.fresh ⟨.Return, "return", none, 1, 20⟩ (.Literal .Nil)).2.1 rfl)
  · exact (initializer_returns_instance_and_rejects_value_return 2
      IState.initial IState.initial IState.initial (.mk ⟨.Identifier, "x", none, 1, 1⟩ [] [])
      0 [] .Nil .Nil 0 IState.initial IState.initial 0
      ⟨.RightParen, ")", none, 1, 4⟩ [] .Nil
      ⟨[], [], [], [.InitializerMethod]⟩
      ⟨.Return, "return", none, 1, 20⟩ (.Literal .Nil)).2.2 rfl

/-- Helper for C5: resolving a function declaration preserves its name and
parameter list. -/
theorem resolveFunction_shape (fuel : Nat) (rs rs1 : RState) (d d1 : FunctionDecl)
    (h : resolveFunction fuel rs d = some (d1, rs1)) :
    d1.name = d.name ∧ d1.params = d.params := by
  cases fuel with
  | zero => simp [resolveFunction] at h
  | succ f =>
    simp only [resolveFunction, Option.bind_eq_bind, Option.bind_eq_some] at h
    obtain ⟨⟨b1, rsa⟩, hb, hres⟩ := h
    simp only [Option.some_inj, Prod.mk.injEq] at hres
    obtain ⟨rfl, rfl⟩ := hres
    exact ⟨rfl, rfl⟩

set_option maxHeartbeats 1000000 in
/-- Helper for C5: one resolver pass is idempotent pointwise — re-resolving
an already-resolved node from the same resolver state reproduces the node
and the state evolution exactly.  (Hop computation depends only on names
and structure, never on the hops already stored; error early-returns
leave the stored hops untouched both times.) -/
theorem resolve_idem_all (fuel : Nat) :
    (∀ rs e e1 rs1, resolveE fuel rs e = some (e1, rs1) →
      resolveE fuel rs e1 = some (e1, rs1)) ∧
    (∀ rs es es1 rs1, resolveEList fuel rs es = some (es1, rs1) →
      resolveEList fuel rs es1 = some (es1, rs1)) ∧
    (∀ rs s s1 rs1, resolveS fuel rs s = some (s1, rs1) →
      resolveS fuel rs s1 = some (s1, rs1)) ∧
    (∀ rs ss ss1 rs1, resolveSList fuel rs ss = some (ss1, rs1) →
      resolveSList fuel rs ss1 = some (ss1, rs1)) ∧
    (∀ rs d d1 rs1, resolveFunction fuel rs d = some (d1, rs1) →
      resolveFunction fuel rs d1 = some (d1, rs1)) ∧
    (∀ rs ms ms1 rs1, resolveMethods fuel rs ms = some (ms1, rs1) →
      resolveMethods fuel rs ms1 = some (ms1, rs1)) := by
  induction fuel with
  | zero =>
    refine ⟨?_, ?_, ?_, ?_, ?_, ?_⟩ <;> intro a b c d h <;>
      simp [resolveE, resolveEList, resolveS, resolveSList, resolveFunction,
        resolveMethods] at h
  | succ f ih =>
    obtain ⟨ihE, ihEL, ihS, ihSL, ihF, ihM⟩ := ih
    refine ⟨?_, ?_, ?_, ?_, ?_, ?_⟩
    · -- expressions
      intro rs e e1 rs1 h
      cases e with
      | Literal l =>
        simp only [resolveE, Option.some_inj, Prod.mk.injEq] at h
        obtain ⟨rfl, rfl⟩ := h
        simp [resolveE]
      | Unary op right =>
        simp only [resolveE, Option.bind_eq_bind, Option.bind_eq_some] at h
        obtain ⟨⟨r1, rsa⟩, hr, hres⟩ := h
        simp only [Option.some_inj, Prod.mk.injEq] at hres
        obtain ⟨rfl, rfl⟩ := hres
        simp only [resolveE, Option.bind_eq_bind, Option.bind_eq_some]
        exact ⟨⟨r1, rsa⟩, ihE _ _ _ _ hr, rfl⟩
      | Binary left right op =>
        simp only [resolveE, Option.bind_eq_bind, Option.bind_eq_some] at h
        obtain ⟨⟨l1, rsa⟩, hl, ⟨⟨r1, rsb⟩, hr, hres⟩⟩ := h
        simp only [Option.some_inj, Prod.mk.injEq] at hres
        obtain ⟨rfl, rfl⟩ := hres
        simp only [resolveE, Option.bind_eq_bind, Option.bind_eq_some]
        exact ⟨⟨l1, rsa⟩, ihE _ _ _ _ hl, ⟨r1, rsb⟩, ihE _ _ _ _ hr, rfl⟩
      | Logical left right op =>
        simp only [resolveE, Option.bind_eq_bind, Option.bind_eq_some] at h
        obtain ⟨⟨l1, rsa⟩, hl, ⟨⟨r1, rsb⟩, hr, hres⟩⟩ := h
        simp only [Option.some_inj, Prod.mk.injEq] at hres
        obtain ⟨rfl, rfl⟩ := hres
        simp only [resolveE, Option.bind_eq_bind, Option.bind_eq_some]
        exact ⟨⟨l1, rsa⟩, ihE _ _ _ _ hl, ⟨r1, rsb⟩, ihE _ _ _ _ hr, rfl⟩
      | Grouping sub =>
        simp only [resolveE, Option.bind_eq_bind, Option.bind_eq_some] at h
        obtain ⟨⟨s1, rsa⟩, hs, hres⟩ := h
        simp only [Option.some_inj, Prod.mk.injEq] at hres
        obtain ⟨rfl, rfl⟩ := hres
        simp only [resolveE, Option.bind_eq_bind, Option.bind_eq_some]
        exact ⟨⟨s1, rsa⟩, ihE _ _ _ _ hs, rfl⟩
      | Variable name hops =>
        simp only [resolveE] at h
        split at h
        · rename_i hcond
          simp only [Option.some_inj, Prod.mk.injEq] at h
          obtain ⟨rfl, rfl⟩ := h
          simp only [resolveE]
          rw [if_pos hcond]
        · rename_i hcond
          rcases hrl : rs.resolve_local name.lexeme with ⟨hop, rs2⟩
          rw [hrl] at h
          simp only [Option.some_inj, Prod.mk.injEq] at h
          obtain ⟨rfl, rfl⟩ := h
          simp only [resolveE]
          rw [if_neg hcond, hrl]
      | Assignment name hops value =>
        simp only [resolveE, Option.bind_eq_bind, Option.bind_eq_some] at h
        obtain ⟨⟨v1, rsa⟩, hv, hres⟩ := h
        rcases hrl : rsa.resolve_local name.lexeme with ⟨hop, rs2⟩
        rw [hrl] at hres
        simp only [Option.some_inj, Prod.mk.injEq] at hres
        obtain ⟨rfl, rfl⟩ := hres
        simp only [resolveE, Option.bind_eq_bind, Option.bind_eq_some]
        exact ⟨⟨v1, rsa⟩, ihE _ _ _ _ hv, by rw [hrl]⟩
      | Call right_paren callee args =>
        simp only [resolveE, Option.bind_eq_bind, Option.bind_eq_some] at h
        obtain ⟨⟨c1, rsa⟩, hc, ⟨⟨as1, rsb⟩, has, hres⟩⟩ := h
        simp only [Option.some_inj, Prod.mk.injEq] at hres
        obtain ⟨rfl, rfl⟩ := hres
        simp only [resolveE, Option.bind_eq_bind, Option.bind_eq_some]
        exact ⟨⟨c1, rsa⟩, ihE _ _ _ _ hc, ⟨as1, rsb⟩, ihEL _ _ _ _ has, rfl⟩
      | Get name object =>
        simp only [resolveE, Option.bind_eq_bind, Option.bind_eq_some] at h
        obtain ⟨⟨o1, rsa⟩, ho, hres⟩ := h
        simp only [Option.some_inj, Prod.mk.injEq] at hres
        obtain ⟨rfl, rfl⟩ := hres
        simp only [resolveE, Option.bind_eq_bind, Option.bind_eq_some]
        exact ⟨⟨o1, rsa⟩, ihE _ _ _ _ ho, rfl⟩
      | Set name object value =>
        simp only [resolveE, Option.bind_eq_bind, Option.bind_eq_some] at h
        obtain ⟨⟨o1, rsa⟩, ho, ⟨⟨v1, rsb⟩, hv, hres⟩⟩ := h
        simp only [Option.some_inj, Prod.mk.injEq] at hres
        obtain ⟨rfl, rfl⟩ := hres
        simp only [resolveE, Option.bind_eq_bind, Option.bind_eq_some]
        exact ⟨⟨o1, rsa⟩, ihE _ _ _ _ ho, ⟨v1, rsb⟩, ihE _ _ _ _ hv, rfl⟩
      | This keyword hops =>
        simp only [resolveE] at h
        split at h
        · rename_i hcond
          simp only [Option.some_inj, Prod.mk.injEq] at h
          obtain ⟨rfl, rfl⟩ := h
          simp only [resolveE]
          rw [if_pos hcond]
        · rename_i hcond
          rcases hrl : rs.resolve_local keyword.lexeme with ⟨hop, rs2⟩
          rw [hrl] at h
          simp only [Option.some_inj, Prod.mk.injEq] at h
          obtain ⟨rfl, rfl⟩ := h
          simp only [resolveE]
          rw [if_neg hcond, hrl]
      | Super keyword method hs ht =>
        simp only [resolveE] at h
        rcases hrl1 : rs.resolve_local keyword.lexeme with ⟨h1, rsa⟩
        rw [hrl1] at h
        rcases hrl2 : rsa.resolve_local thisToken.lexeme with ⟨h2, rsb⟩
        rw [hrl2] at h
        simp only [Option.some_inj, Prod.mk.injEq] at h
        obtain ⟨rfl, rfl⟩ := h
        simp only [resolveE]
        rw [hrl1, hrl2]
    · -- expression lists
      intro rs es es1 rs1 h
      cases es with
      | nil =>
        simp only [resolveEList, Option.some_inj, Prod.mk.injEq] at h
        obtain ⟨rfl, rfl⟩ := h
        simp [resolveEList]
      | cons e es =>
        simp only [resolveEList, Option.bind_eq_bind, Option.bind_eq_some] at h
        obtain ⟨⟨e2, rsa⟩, he, ⟨⟨es2, rsb⟩, hes, hres⟩⟩ := h
        simp only [Option.some_inj, Prod.mk.injEq] at hres
        obtain ⟨rfl, rfl⟩ := hres
        simp only [resolveEList, Option.bind_eq_bind, Option.bind_eq_some]
        exact ⟨⟨e2, rsa⟩, ihE _ _ _ _ he, ⟨es2, rsb⟩, ihEL _ _ _ _ hes, rfl⟩
    · -- statements
      intro rs s s1 rs1 h
      cases s with
      | Expression e =>
        simp only [resolveS, Option.bind_eq_bind, Option.bind_eq_some] at h
        obtain ⟨⟨e2, rsa⟩, he, hres⟩ := h
        simp only [Option.some_inj, Prod.mk.injEq] at hres
        obtain ⟨rfl, rfl⟩ := hres
        simp only [resolveS, Option.bind_eq_bind, Option.bind_eq_some]
        exact ⟨⟨e2, rsa⟩, ihE _ _ _ _ he, rfl⟩
      | Print e =>
        simp only [resolveS, Option.bind_eq_bind, Option.bind_eq_some] at h
        obtain ⟨⟨e2, rsa⟩, he, hres⟩ := h
        simp only [Option.some_inj, Prod.mk.injEq] at hres
        obtain ⟨rfl, rfl⟩ := hres
        simp only [resolveS, Option.bind_eq_bind, Option.bind_eq_some]
        exact ⟨⟨e2, rsa⟩, ihE _ _ _ _ he, rfl⟩
      | Var name initializer =>
        cases initializer with
        | none =>
          simp only [resolveS, Option.some_inj, Prod.mk.injEq] at h
          obtain ⟨rfl, rfl⟩ := h
          simp [resolveS]
        | some init =>
          simp only [resolveS, Option.bind_eq_bind, Option.bind_eq_some] at h
          obtain ⟨⟨i1, rsa⟩, hi, hres⟩ := h
          simp only [Option.some_inj, Prod.mk.injEq] at hres
          obtain ⟨rfl, rfl⟩ := hres
          simp only [resolveS, Option.bind_eq_bind, Option.bind_eq_some]
          exact ⟨⟨i1, rsa⟩, ihE _ _ _ _ hi, rfl⟩
      | Block statements =>
        simp only [resolveS, Option.bind_eq_bind, Option.bind_eq_some] at h
        obtain ⟨⟨ss1, rsa⟩, hss, hres⟩ := h
        simp only [Option.some_inj, Prod.mk.injEq] at hres
        obtain ⟨rfl, rfl⟩ := hres
        simp only [resolveS, Option.bind_eq_bind, Option.bind_eq_some]
        exact ⟨⟨ss1, rsa⟩, ihSL _ _ _ _ hss, rfl⟩
      | If cond then_branch else_branch =>
        cases else_branch with
        | none =>
          simp only [resolveS, Option.bind_eq_bind, Option.bind_eq_some] at h
          obtain ⟨⟨c1, rsa⟩, hc, ⟨⟨t1, rsb⟩, ht, hres⟩⟩ := h
          simp only [Option.some_inj, Prod.mk.injEq] at hres
          obtain ⟨rfl, rfl⟩ := hres
          simp only [resolveS, Option.bind_eq_bind, Option.bind_eq_some]
          exact ⟨⟨c1, rsa⟩, ihE _ _ _ _ hc, ⟨t1, rsb⟩, ihS _ _ _ _ ht, rfl⟩
        | some br =>
          simp only [resolveS, Option.bind_eq_bind, Option.bind_eq_some] at h
          obtain ⟨⟨c1, rsa⟩, hc, ⟨⟨t1, rsb⟩, ht, ⟨⟨b1, rsc⟩, hbr, hres⟩⟩⟩ := h
          simp only [Option.some_inj, Prod.mk.injEq] at hres
          obtain ⟨rfl, rfl⟩ := hres
          simp only [resolveS, Option.bind_eq_bind, Option.bind_eq_some]
          exact ⟨⟨c1, rsa⟩, ihE _ _ _ _ hc, ⟨t1, rsb⟩, ihS _ _ _ _ ht,
            ⟨b1, rsc⟩, ihS _ _ _ _ hbr, rfl⟩
      | While cond body =>
        simp only [resolveS, Option.bind_eq_bind, Option.bind_eq_some] at h
        obtain ⟨⟨c1, rsa⟩, hc, ⟨⟨b1, rsb⟩, hb, hres⟩⟩ := h
        simp only [Option.some_inj, Prod.mk.injEq] at hres
        obtain ⟨rfl, rfl⟩ := hres
        simp only [resolveS, Option.bind_eq_bind, Option.bind_eq_some]
        exact ⟨⟨c1, rsa⟩, ihE _ _ _ _ hc, ⟨b1, rsb⟩, ihS _ _ _ _ hb, rfl⟩
      | Function decl =>
        simp only [resolveS, Option.bind_eq_bind, Option.bind_eq_some] at h
        obtain ⟨⟨d1, rsa⟩, hd, hres⟩ := h
        simp only [Option.some_inj, Prod.mk.injEq] at hres
        obtain ⟨rfl, rfl⟩ := hres
        have hname : d1.name = decl.name := (resolveFunction_shape f _ _ _ _ hd).1
        simp only [resolveS, Option.bind_eq_bind, Option.bind_eq_some, hname]
        exact ⟨⟨d1, rsa⟩, ihF _ _ _ _ hd, rfl⟩
      | Break keyword =>
        simp only [resolveS, Option.some_inj, Prod.mk.injEq] at h
        obtain ⟨rfl, rfl⟩ := h
        simp [resolveS]
      | Return keyword value =>
        rcases hn : nearest_function_context rs.context with _ | ctx
        · simp only [resolveS, hn, Option.some_inj, Prod.mk.injEq] at h
          obtain ⟨rfl, rfl⟩ := h
          simp only [resolveS, hn]
        · simp only [resolveS, hn] at h
          split at h
          · rename_i hcond
            simp only [Option.some_inj, Prod.mk.injEq] at h
            obtain ⟨rfl, rfl⟩ := h
            simp only [resolveS, hn]
            rw [if_pos hcond]
          · rename_i hcond
            cases value with
            | none =>
              simp only [Option.some_inj, Prod.mk.injEq] at h
              obtain ⟨rfl, rfl⟩ := h
              simp only [resolveS, hn]
              rw [if_neg hcond]
            | some e =>
              simp only [Option.bind_eq_bind, Option.bind_eq_some] at h
              obtain ⟨⟨e2, rsa⟩, he, hres⟩ := h
              simp only [Option.some_inj, Prod.mk.injEq] at hres
              obtain ⟨rfl, rfl⟩ := hres
              simp only [Option.isSome_some, and_true] at hcond
              simp only [resolveS, hn]
              rw [if_neg (by simp [hcond])]
              simp only [Option.bind_eq_bind, Option.bind_eq_some]
              exact ⟨⟨e2, rsa⟩, ihE _ _ _ _ he, rfl⟩
      | Class name super_class methods =>
        cases super_class with
        | none =>
          simp only [resolveS, Option.bind_eq_bind, Option.bind_eq_some] at h
          obtain ⟨⟨ms1, rsa⟩, hms, hres⟩ := h
          simp only [Option.some_inj, Prod.mk.injEq] at hres
          obtain ⟨rfl, rfl⟩ := hres
          simp only [resolveS, Option.bind_eq_bind, Option.bind_eq_some]
          exact ⟨⟨ms1, rsa⟩, ihM _ _ _ _ hms, rfl⟩
        | some pair =>
          obtain ⟨supName, supHops⟩ := pair
          simp only [resolveS] at h
          split at h
          · rename_i hcond
            simp only [Option.some_inj, Prod.mk.injEq] at h
            obtain ⟨rfl, rfl⟩ := h
            simp only [resolveS]
            rw [if_pos hcond]
          · rename_i hcond
            rcases hrl : ((({ rs with context := Context.Class :: rs.context }).declare
                name).define name).resolve_local supName.lexeme with ⟨hsup, rsa⟩
            rw [hrl] at h
            simp only [Option.bind_eq_bind, Option.bind_eq_some] at h
            obtain ⟨⟨ms1, rsb⟩, hms, hres⟩ := h
            simp only [Option.some_inj, Prod.mk.injEq] at hres
            obtain ⟨rfl, rfl⟩ := hres
            simp only [resolveS]
            rw [if_neg hcond, hrl]
            simp only [Option.bind_eq_bind, Option.bind_eq_some]
            exact ⟨⟨ms1, rsb⟩, ihM _ _ _ _ hms, rfl⟩
    · -- statement lists
      intro rs ss ss1 rs1 h
      cases ss with
      | nil =>
        simp only [resolveSList, Option.some_inj, Prod.mk.injEq] at h
        obtain ⟨rfl, rfl⟩ := h
        simp [resolveSList]
      | cons s ss =>
        simp only [resolveSList, Option.bind_eq_bind, Option.bind_eq_some] at h
        obtain ⟨⟨s2, rsa⟩, hs, ⟨⟨ss2, rsb⟩, hss, hres⟩⟩ := h
        simp only [Option.some_inj, Prod.mk.injEq] at hres
        obtain ⟨rfl, rfl⟩ := hres
        simp only [resolveSList, Option.bind_eq_bind, Option.bind_eq_some]
        exact ⟨⟨s2, rsa⟩, ihS _ _ _ _ hs, ⟨ss2, rsb⟩, ihSL _ _ _ _ hss, rfl⟩
    · -- functions
      intro rs d d1 rs1 h
      cases d with
      | mk name params body =>
        simp only [resolveFunction, Option.bind_eq_bind, Option.bind_eq_some] at h
        obtain ⟨⟨b1, rsa⟩, hb, hres⟩ := h
        simp only [Option.some_inj, Prod.mk.injEq] at hres
        obtain ⟨rfl, rfl⟩ := hres
        simp only [resolveFunction, Option.bind_eq_bind, Option.bind_eq_some]
        exact ⟨⟨b1, rsa⟩, ihSL _ _ _ _ hb, rfl⟩
    · -- methods
      intro rs ms ms1 rs1 h
      cases ms with
      | nil =>
        simp only [resolveMethods, Option.some_inj, Prod.mk.injEq] at h
        obtain ⟨rfl, rfl⟩ := h
        simp [resolveMethods]
      | cons m ms =>
        simp only [resolveMethods, Option.bind_eq_bind, Option.bind_eq_some] at h
        obtain ⟨⟨m1, rsa⟩, hm, ⟨⟨ms2, rsb⟩, hms, hres⟩⟩ := h
        simp only [Option.some_inj, Prod.mk.injEq] at hres
        obtain ⟨rfl, rfl⟩ := hres
        have hname : m1.name = m.name := (resolveFunction_shape f _ _ _ _ hm).1
        simp only [resolveMethods, Option.bind_eq_bind, Option.bind_eq_some, hname]
        exact ⟨⟨m1, rsa⟩, ihF _ _ _ _ hm, ⟨ms2, rsb⟩, ihM _ _ _ _ hms, rfl⟩

/-- C5: resolution is idempotent: running a fresh resolver on an
already-resolved program reproduces every hops annotation (indeed the
whole program and the result) of the first run. -/
theorem resolver_idempotent (fuel : Nat) (stmts stmts1 : List Stmt) (res : ResolutionResult)
    (h : resolveProgram fuel stmts = some (stmts1, res)) :
    resolveProgram fuel stmts1 = some (stmts1, res) := by
  simp only [resolveProgram, Option.bind_eq_bind, Option.bind_eq_some] at h ⊢
  obtain ⟨⟨ss1, rsa⟩, hsl, hres⟩ := h
  simp only [Option.some_inj, Prod.mk.injEq] at hres
  obtain ⟨rfl, rfl⟩ := hres
  exact ⟨⟨ss1, rsa⟩, (resolve_idem_all fuel).2.2.2.1 _ _ _ _ hsl, rfl⟩

/-- C5 witness: re-resolving the resolved form of
`{ var x = nil; print x; }` reproduces it exactly. -/
theorem resolver_idempotent_witness :
    resolveProgram 9
        [.Block [.Var ⟨.Identifier, "x", none, 1, 7⟩ (some (.Literal .Nil)),
                 .Print (.Variable ⟨.Identifier, "x", none, 2, 9⟩ (some 0))]] =
      some ([.Block [.Var ⟨.Identifier, "x", none, 1, 7⟩ (some (.Literal .Nil)),
                     .Print (.Variable ⟨.Identifier, "x", none, 2, 9⟩ (some 0))]],
            ⟨none, none⟩) := by
  have h : resolveProgram 9
      [.Block [.Var ⟨.Identifier, "x", none, 1, 7⟩ (some (.Literal .Nil)),
               .Print (.Variable ⟨.Identifier, "x", none, 2, 9⟩ none)]] =
    some ([.Block [.Var ⟨.Identifier, "x", none, 1, 7⟩ (some (.Literal .Nil)),
                   .Print (.Variable ⟨.Identifier, "x", none, 2, 9⟩ (some 0))]],
          ⟨none, none⟩) := rfl
  exact resolver_idempotent 9 _ _ _ h


end Rlox
